import Mathlib

/-!
# Move text interchange and move generation of the `integral` chess engine

A shallow embedding of `src/move.cpp` and `src/move_gen.cpp`.

* 64-bit bitboards are natural numbers below `2 ^ 64`; every operation that can
  leave that range in the source (left shifts, complement) is reduced modulo `2 ^ 64`.
* A `std::string` / `std::string_view` is a `List Char`, one element per `char`;
  only the numeric value of a `char` is ever used.
* `std::optional<T>` is `Option T`, `std::nullopt` is `none`.
* A `MoveList` is a `List Move`; `push` appends at the end.
-/

namespace Integral

/-! ## Data model -/

/-- Modelled from the spec: the enumeration `Color` of the absent `board.h`
("Color: White | Black"), with the sentinel `kNoColor` that `pawn_attacks` tests for. -/
inductive Color where
  | kWhite
  | kBlack
  | kNoColor
deriving DecidableEq, Repr

/-- Modelled from the spec: the enumeration `PieceType` of the absent `board.h`. -/
inductive PieceType where
  | kPawn
  | kKnight
  | kBishop
  | kRook
  | kQueen
  | kKing
  | kNone
deriving DecidableEq, Repr

/-- Modelled from the spec: the enumeration `PromotionType` of the absent `board.h`
("None | Knight | Bishop | Rook | Queen | Any"). -/
inductive PromotionType where
  | kNone
  | kAny
  | kKnight
  | kBishop
  | kRook
  | kQueen
deriving DecidableEq, Repr

/-- Modelled from the spec: `flip_color` of the absent `board.h`, the opposite side. -/
def flip_color : Color → Color
  | Color.kWhite => Color.kBlack
  | Color.kBlack => Color.kWhite
  | Color.kNoColor => Color.kNoColor

/-- The constant `kBoardRanks` of the absent `board.h`. -/
def kBoardRanks : Nat := 8

/-- The constant `kBoardFiles` of the absent `board.h`. -/
def kBoardFiles : Nat := 8

/-- Modelled from the spec: `rank_file_to_pos` of the absent `board.h`
("rank = square/8, file = square%8"). -/
def rank_file_to_pos (rank file : Nat) : Nat := rank * kBoardFiles + file

/-- Modelled from the spec: `rank` of the absent `board.h` ("rank = square/8"). -/
def rank (square : Nat) : Nat := square / kBoardRanks

/-- Modelled from the spec: the class `Move` of the absent `board.h`, "immutable
{from, to, promotion}, packed for cheap equality/copy"; `operator==` compares the
packed word, which is equality of the three components. -/
structure Move where
  from_ : Nat
  to_ : Nat
  promotion : PromotionType
deriving DecidableEq, Repr

/-- The constructor `Move(from, to)`: the promotion bits stay zero. -/
def Move.mk2 (from_ to_ : Nat) : Move := ⟨from_, to_, PromotionType.kNone⟩

/-- The constructor `Move(from, to, promotion_type)`. -/
def Move.mk3 (from_ to_ : Nat) (promotion_type : PromotionType) : Move :=
  ⟨from_, to_, promotion_type⟩

def Move.get_from (m : Move) : Nat := m.from_

def Move.get_to (m : Move) : Nat := m.to_

def Move.get_promotion_type (m : Move) : PromotionType := m.promotion

/-- The function `Move::null_move`. -/
def Move.null_move : Move := Move.mk2 0 0

/-- Modelled from the spec: the class `BitBoard` of the absent `board.h`, a "64-bit
set where bit i denotes membership of board square i". The word is a natural number
kept below `2 ^ 64`. -/
structure BitBoard where
  bits : Nat
  lt : bits < 2 ^ 64
deriving DecidableEq, Repr

/-- The 64-bit word holding the low 64 bits of `n`. -/
def BitBoard.ofNat (n : Nat) : BitBoard := ⟨n % 2 ^ 64, Nat.mod_lt _ (by decide)⟩

instance (n : Nat) : OfNat BitBoard n := ⟨BitBoard.ofNat n⟩

/-- The operator `&`. -/
def BitBoard.and (a b : BitBoard) : BitBoard := ⟨a.bits &&& b.bits, Nat.and_lt_two_pow _ b.lt⟩

/-- The operator `|`. -/
def BitBoard.or (a b : BitBoard) : BitBoard := ⟨a.bits ||| b.bits, Nat.or_lt_two_pow a.lt b.lt⟩

/-- The operator `~` on a 64-bit word. -/
def BitBoard.not (a : BitBoard) : BitBoard := BitBoard.ofNat (2 ^ 64 - 1 - a.bits)

/-- The operator `<<`: bits shifted past the top of the word are dropped. -/
def BitBoard.shl (a : BitBoard) (n : Nat) : BitBoard := BitBoard.ofNat (a.bits <<< n)

/-- The operator `>>`. -/
def BitBoard.shr (a : BitBoard) (n : Nat) : BitBoard := BitBoard.ofNat (a.bits >>> n)

instance : AndOp BitBoard := ⟨BitBoard.and⟩

instance : OrOp BitBoard := ⟨BitBoard.or⟩

instance : Complement BitBoard := ⟨BitBoard.not⟩

instance : HShiftLeft BitBoard Nat BitBoard := ⟨BitBoard.shl⟩

instance : HShiftRight BitBoard Nat BitBoard := ⟨BitBoard.shr⟩

/-- The conversion of a bitboard to `bool`: some square is a member. -/
def BitBoard.nonEmpty (a : BitBoard) : Bool := a.bits != 0

/-- The function `BitBoard::from_square`, the word `1ULL << square`. -/
def BitBoard.from_square (square : Nat) : BitBoard := BitBoard.ofNat (1 <<< square)

/-- The function `BitBoard::is_set`. -/
def BitBoard.is_set (a : BitBoard) (square : Nat) : Bool := a.bits.testBit square

/-- The function `BitBoard::set_bit`, returning the updated word. -/
def BitBoard.set_bit (a : BitBoard) (square : Nat) : BitBoard := a ||| BitBoard.from_square square

/-- The function `BitBoard::clear_bit`, returning the updated word. -/
def BitBoard.clear_bit (a : BitBoard) (square : Nat) : BitBoard :=
  a &&& ~~~(BitBoard.from_square square)

/-- The members of a bitboard in ascending order. -/
def BitBoard.squares (a : BitBoard) : List Nat := (List.range 64).filter a.is_set

/-- The function `BitBoard::get_lsb_pos`: the lowest member, 64 for the empty word. -/
def BitBoard.get_lsb_pos (a : BitBoard) : Nat := ((List.range 64).find? a.is_set).getD 64

/-- The function `BitBoard::pop_lsb` ("extract-and-clear lowest member"): the lowest
member together with the word after clearing it. -/
def BitBoard.pop_lsb (a : BitBoard) : Nat × BitBoard :=
  let lsb_pos := a.get_lsb_pos
  (lsb_pos, a.clear_bit lsb_pos)

/-- The loop `while (bb) { sq = bb.pop_lsb(); body }` threading a list through the
body; a 64-bit word is empty after at most 64 extractions. -/
def while_pop {σ : Type} (body : σ → Nat → σ) : Nat → BitBoard → σ → σ
  | 0, _, acc => acc
  | fuel + 1, bb, acc =>
    if bb.nonEmpty then
      let r := bb.pop_lsb
      while_pop body fuel r.2 (body acc r.1)
    else acc

/-- The constants `FileMask::kFileA` .. `FileMask::kFileH` used by `initialize_attacks`. -/
def FileMask.kFileA : BitBoard := 0x0101010101010101

def FileMask.kFileB : BitBoard := 0x0202020202020202

def FileMask.kFileG : BitBoard := 0x4040404040404040

def FileMask.kFileH : BitBoard := 0x8080808080808080

/-- The constants `RankMask::kRank2` and `RankMask::kRank7` used by `pawn_moves`. -/
def RankMask.kRank2 : BitBoard := 0x000000000000FF00

def RankMask.kRank7 : BitBoard := 0x00FF000000000000

/-- The compass directions of `shift<Direction>`. -/
inductive Direction where
  | kNorth
  | kSouth
  | kEast
  | kWest
  | kNorthEast
  | kNorthWest
  | kSouthEast
  | kSouthWest
deriving DecidableEq, Repr

/-- Modelled from the spec: the template `shift<Direction>` of the absent `board.h`,
"directional shift (8 compass directions, edge-masked to prevent file/rank
wraparound)": members on the edge file that would wrap are cleared first. -/
def shift (d : Direction) (bb : BitBoard) : BitBoard :=
  match d with
  | Direction.kNorth => bb <<< 8
  | Direction.kSouth => bb >>> 8
  | Direction.kEast => (bb &&& ~~~FileMask.kFileH) <<< 1
  | Direction.kWest => (bb &&& ~~~FileMask.kFileA) >>> 1
  | Direction.kNorthEast => (bb &&& ~~~FileMask.kFileH) <<< 9
  | Direction.kNorthWest => (bb &&& ~~~FileMask.kFileA) <<< 7
  | Direction.kSouthEast => (bb &&& ~~~FileMask.kFileH) >>> 7
  | Direction.kSouthWest => (bb &&& ~~~FileMask.kFileA) >>> 9

/-- The constants of the enumeration `Square` used by the move generator. -/
def Square.kB1 : Nat := 1

def Square.kC1 : Nat := 2

def Square.kD1 : Nat := 3

def Square.kE1 : Nat := 4

def Square.kF1 : Nat := 5

def Square.kG1 : Nat := 6

def Square.kB8 : Nat := 57

def Square.kC8 : Nat := 58

def Square.kD8 : Nat := 59

def Square.kE8 : Nat := 60

def Square.kF8 : Nat := 61

def Square.kG8 : Nat := 62

def Square.kSquareCount : Nat := 64

def Square.kNoSquare : Nat := 64

/-- A `MoveList`: moves in insertion order. -/
abbrev MoveList := List Move

/-- The function `MoveList::push`. -/
def MoveList.push (l : MoveList) (m : Move) : MoveList := l ++ [m]

/-- Modelled from the spec: the four castling flags held by `state.castle_rights`. -/
structure CastleRights where
  white_kingside : Bool
  white_queenside : Bool
  black_kingside : Bool
  black_queenside : Bool
deriving DecidableEq, Repr

/-- Modelled from the spec: the structure `BoardState` of the absent `board.h`,
"per-color per-piece bitboards, turn, castling-rights (4 independent flags),
optional en-passant target". The en-passant target is a square, `kNoSquare` when
there is none. -/
structure BoardState where
  white_pawns : BitBoard
  white_knights : BitBoard
  white_bishops : BitBoard
  white_rooks : BitBoard
  white_queens : BitBoard
  white_king : BitBoard
  black_pawns : BitBoard
  black_knights : BitBoard
  black_bishops : BitBoard
  black_rooks : BitBoard
  black_queens : BitBoard
  black_king : BitBoard
  turn : Color
  castle_rights : CastleRights
  en_passant : Nat
deriving DecidableEq, Repr

/-! ## `move.cpp` -/

/-- The value of `str[i]` as an `int`. -/
def charAt (str : List Char) (i : Nat) : Int := ((str.getD i (Char.ofNat 0)).toNat : Int)

/-- The function `Move::from_str`. -/
def Move.from_str (_state : BoardState) (str : List Char) : Option Move :=
  let kMinMoveLen := 4
  let kMaxMoveLen := 5
  if str.length < kMinMoveLen ∨ str.length > kMaxMoveLen then none
  else
    let from_rank : Int := charAt str 1 - ('1'.toNat : Int)
    let from_file : Int := charAt str 0 - ('a'.toNat : Int)
    let to_rank : Int := charAt str 3 - ('1'.toNat : Int)
    let to_file : Int := charAt str 2 - ('a'.toNat : Int)
    if from_rank < 0 ∨ from_rank ≥ 8 ∨ to_rank < 0 ∨ to_rank ≥ 8 ∨
        from_file < 0 ∨ from_file ≥ 8 ∨ to_file < 0 ∨ to_file ≥ 8 then none
    else
      let from_ := rank_file_to_pos from_rank.toNat from_file.toNat
      let to_ := rank_file_to_pos to_rank.toNat to_file.toNat
      if str.length < kMaxMoveLen then some (Move.mk2 from_ to_)
      else
        let c := str.getD 4 (Char.ofNat 0)
        if c = 'q' ∨ c = 'Q' then some (Move.mk3 from_ to_ PromotionType.kQueen)
        else if c = 'r' ∨ c = 'R' then some (Move.mk3 from_ to_ PromotionType.kRook)
        else if c = 'b' ∨ c = 'B' then some (Move.mk3 from_ to_ PromotionType.kBishop)
        else if c = 'n' ∨ c = 'N' then some (Move.mk3 from_ to_ PromotionType.kKnight)
        else none

/-- The standard library call `std::to_string` on a non-negative integer. -/
def std_to_string (n : Nat) : List Char := (Nat.repr n).toList

/-- The function `Move::to_string`. -/
def Move.to_string (m : Move) : List Char :=
  if m = Move.null_move then "null".toList
  else
    let from_rank := m.get_from / kBoardRanks
    let from_file := m.get_from % kBoardFiles
    let to_rank := m.get_to / kBoardRanks
    let to_file := m.get_to % kBoardFiles
    let res := [Char.ofNat ('a'.toNat + from_file)] ++ std_to_string (from_rank + 1) ++
      [Char.ofNat ('a'.toNat + to_file)] ++ std_to_string (to_rank + 1)
    match m.get_promotion_type with
    | PromotionType.kAny => res ++ ['q']
    | PromotionType.kQueen => res ++ ['q']
    | PromotionType.kKnight => res ++ ['n']
    | PromotionType.kBishop => res ++ ['b']
    | PromotionType.kRook => res ++ ['r']
    | PromotionType.kNone => res

/-- An arbitrary position used where a state is required but not inspected. -/
def emptyState : BoardState :=
  ⟨0, 0, 0, 0, 0, 0, 0, 0, 0, 0, 0, 0, Color.kWhite, ⟨false, false, false, false⟩, 64⟩

/-! ## `BoardState` accessors -/

/-- Modelled from the spec: the accessors `pawns(color)` .. `king(color)` of the
absent `board.h`, the per-color per-piece bitboards; no piece belongs to `kNoColor`. -/
def BoardState.pawns (state : BoardState) : Color → BitBoard
  | Color.kWhite => state.white_pawns
  | Color.kBlack => state.black_pawns
  | Color.kNoColor => 0

def BoardState.knights (state : BoardState) : Color → BitBoard
  | Color.kWhite => state.white_knights
  | Color.kBlack => state.black_knights
  | Color.kNoColor => 0

def BoardState.bishops (state : BoardState) : Color → BitBoard
  | Color.kWhite => state.white_bishops
  | Color.kBlack => state.black_bishops
  | Color.kNoColor => 0

def BoardState.rooks (state : BoardState) : Color → BitBoard
  | Color.kWhite => state.white_rooks
  | Color.kBlack => state.black_rooks
  | Color.kNoColor => 0

def BoardState.queens (state : BoardState) : Color → BitBoard
  | Color.kWhite => state.white_queens
  | Color.kBlack => state.black_queens
  | Color.kNoColor => 0

def BoardState.king (state : BoardState) : Color → BitBoard
  | Color.kWhite => state.white_king
  | Color.kBlack => state.black_king
  | Color.kNoColor => 0

/-- Modelled from the spec: the accessor `occupied(color)`, every square holding a
piece of that color. -/
def BoardState.occupied_by (state : BoardState) (color : Color) : BitBoard :=
  state.pawns color ||| state.knights color ||| state.bishops color ||| state.rooks color |||
    state.queens color ||| state.king color

/-- Modelled from the spec: the accessor `occupied()`, every square holding a piece. -/
def BoardState.occupied (state : BoardState) : BitBoard :=
  state.occupied_by Color.kWhite ||| state.occupied_by Color.kBlack

/-- Modelled from the spec: the accessor `get_piece_color(pos)`, the color of the
piece standing on `pos`, `kNoColor` for an empty square. -/
def BoardState.get_piece_color (state : BoardState) (pos : Nat) : Color :=
  if (state.occupied_by Color.kWhite).is_set pos then Color.kWhite
  else if (state.occupied_by Color.kBlack).is_set pos then Color.kBlack
  else Color.kNoColor

/-- Modelled from the spec: the accessors `can_kingside_castle(color)` and
`can_queenside_castle(color)` of `castle_rights`, the four independent flags. -/
def CastleRights.can_kingside_castle (r : CastleRights) : Color → Bool
  | Color.kWhite => r.white_kingside
  | Color.kBlack => r.black_kingside
  | Color.kNoColor => false

def CastleRights.can_queenside_castle (r : CastleRights) : Color → Bool
  | Color.kWhite => r.white_queenside
  | Color.kBlack => r.black_queenside
  | Color.kNoColor => false

/-! ## `move_gen.cpp` -/

/-- The table `knight_masks` after `initialize_attacks` has run on the zeroed array:
the entry for `square`. -/
def knight_masks (square : Nat) : BitBoard :=
  let bb_pos := BitBoard.from_square square
  let m : BitBoard := 0
  let m := m ||| ((bb_pos &&& ~~~FileMask.kFileH) <<< 17)
  let m := m ||| ((bb_pos &&& ~~~(FileMask.kFileH ||| FileMask.kFileG)) <<< 10)
  let m := m ||| ((bb_pos &&& ~~~(FileMask.kFileH ||| FileMask.kFileG)) >>> 6)
  let m := m ||| ((bb_pos &&& ~~~FileMask.kFileH) >>> 15)
  let m := m ||| ((bb_pos &&& ~~~FileMask.kFileA) <<< 15)
  let m := m ||| ((bb_pos &&& ~~~(FileMask.kFileA ||| FileMask.kFileB)) <<< 6)
  let m := m ||| ((bb_pos &&& ~~~(FileMask.kFileA ||| FileMask.kFileB)) >>> 10)
  let m := m ||| ((bb_pos &&& ~~~FileMask.kFileA) >>> 17)
  m

/-- The table `king_masks` after `initialize_attacks`: the entry for `square`. -/
def king_masks (square : Nat) : BitBoard :=
  let bb_pos := BitBoard.from_square square
  let m : BitBoard := 0
  let m := m ||| shift Direction.kNorth bb_pos
  let m := m ||| shift Direction.kSouth bb_pos
  let m := m ||| shift Direction.kEast bb_pos
  let m := m ||| shift Direction.kWest bb_pos
  let m := m ||| shift Direction.kNorthEast bb_pos
  let m := m ||| shift Direction.kNorthWest bb_pos
  let m := m ||| shift Direction.kSouthEast bb_pos
  let m := m ||| shift Direction.kSouthWest bb_pos
  m

/-- The table `pawn_masks` after `initialize_attacks`: the entry for a color and
`square`; the table has no row for `kNoColor`. -/
def pawn_masks (color : Color) (square : Nat) : BitBoard :=
  let bb_pos := BitBoard.from_square square
  let m : BitBoard := 0
  match color with
  | Color.kWhite =>
    let m := m ||| shift Direction.kNorthEast bb_pos
    let m := m ||| shift Direction.kNorthWest bb_pos
    m
  | Color.kBlack =>
    let m := m ||| shift Direction.kSouthEast bb_pos
    let m := m ||| shift Direction.kSouthWest bb_pos
    m
  | Color.kNoColor => m

/-- An entry of the absent tables `magics::kRookMagics` / `magics::kBishopMagics`. -/
structure MagicEntry where
  mask : Nat
  magic : Nat
  shift : Nat

/-- The absent magic-bitboard tables, taken as a parameter: the per-square entries
and the precomputed attack tables `magics::attacks::rook_attacks` and
`magics::attacks::bishop_attacks`. -/
structure Magics where
  kBishopMagics : Nat → MagicEntry
  kRookMagics : Nat → MagicEntry
  bishop_attacks : Nat → Nat → BitBoard
  rook_attacks : Nat → Nat → BitBoard

/-- The function `knight_moves`. -/
def knight_moves (pos : Nat) : BitBoard := knight_masks pos

/-- The function `bishop_moves`; the index is computed in 64-bit arithmetic. -/
def bishop_moves (mg : Magics) (pos : Nat) (occupied : BitBoard) : BitBoard :=
  let entry := mg.kBishopMagics pos
  let magic_index := (((entry.mask &&& occupied.bits) * entry.magic) % 2 ^ 64) >>> entry.shift
  mg.bishop_attacks pos magic_index

/-- The function `rook_moves`; the index is computed in 64-bit arithmetic. -/
def rook_moves (mg : Magics) (pos : Nat) (occupied : BitBoard) : BitBoard :=
  let entry := mg.kRookMagics pos
  let magic_index := (((entry.mask &&& occupied.bits) * entry.magic) % 2 ^ 64) >>> entry.shift
  mg.rook_attacks pos magic_index

/-- The function `king_attacks`. -/
def king_attacks (pos : Nat) : BitBoard := king_masks pos

/-- The function `pawn_attacks`; in the header `which` defaults to `kNoColor` and
`en_passant` to `false`. -/
def pawn_attacks (pos : Nat) (state : BoardState) (which : Color) (en_passant : Bool) : BitBoard :=
  let attacks := pawn_masks (if which = Color.kNoColor then state.get_piece_color pos else which) pos
  if en_passant && state.en_passant != Square.kNoSquare && attacks.is_set state.en_passant then
    attacks.set_bit state.en_passant
  else attacks

/-- The function `pawn_moves`. -/
def pawn_moves (pos : Nat) (state : BoardState) : BitBoard :=
  let moves : BitBoard := 0
  let bb_pos := BitBoard.from_square pos
  let occupied := state.occupied
  let color := state.get_piece_color pos
  if color = Color.kWhite then
    let up := shift Direction.kNorth bb_pos &&& ~~~occupied
    let moves := moves ||| up
    if (bb_pos &&& RankMask.kRank2).nonEmpty then
      let up_up := shift Direction.kNorth up &&& ~~~occupied
      moves ||| up_up
    else moves
  else
    let down := shift Direction.kSouth bb_pos &&& ~~~occupied
    let moves := moves ||| down
    if (bb_pos &&& RankMask.kRank7).nonEmpty then
      let down_down := shift Direction.kSouth down &&& ~~~occupied
      moves ||| down_down
    else moves

/-- The function `is_square_attacked_sliding_pieces`. -/
def is_square_attacked_sliding_pieces (mg : Magics) (pos : Nat) (attacker : Color)
    (state : BoardState) : Bool :=
  let occupied := state.occupied
  let rook_attacks := rook_moves mg pos occupied
  let bishop_attacks := bishop_moves mg pos occupied
  let attacker_rooks := state.rooks attacker
  let attacker_bishops := state.bishops attacker
  let attacker_queens := state.queens attacker
  (attacker_queens &&& (rook_attacks ||| bishop_attacks)).nonEmpty ||
    (attacker_rooks &&& rook_attacks).nonEmpty ||
    (attacker_bishops &&& bishop_attacks).nonEmpty

/-- The function `is_square_attacked_non_sliding_pieces`. -/
def is_square_attacked_non_sliding_pieces (pos : Nat) (attacker : Color)
    (state : BoardState) : Bool :=
  let attacker_pawns := state.pawns attacker
  let attacker_knights := state.knights attacker
  let attacker_king := state.king attacker
  (attacker_pawns &&& pawn_attacks pos state (flip_color attacker) false).nonEmpty ||
    (attacker_knights &&& knight_moves pos).nonEmpty ||
    (attacker_king &&& king_attacks pos).nonEmpty

/-- The function `is_square_attacked`. -/
def is_square_attacked (mg : Magics) (pos : Nat) (attacker : Color) (state : BoardState) : Bool :=
  is_square_attacked_non_sliding_pieces pos attacker state ||
    is_square_attacked_sliding_pieces mg pos attacker state

/-- The function `king_in_check`. -/
def king_in_check (mg : Magics) (color : Color) (state : BoardState) : Bool :=
  is_square_attacked mg (state.king color).get_lsb_pos (flip_color color) state

/-- The function `castling_moves`. -/
def castling_moves (mg : Magics) (which : Color) (state : BoardState) : BitBoard :=
  let moves : BitBoard := 0
  let occupied := state.occupied
  if which = Color.kWhite then
    let attacker := flip_color which
    let moves :=
      if state.castle_rights.can_kingside_castle Color.kWhite then
        if !is_square_attacked mg Square.kF1 attacker state && !occupied.is_set Square.kF1 &&
            !is_square_attacked mg Square.kG1 attacker state && !occupied.is_set Square.kG1 then
          moves.set_bit Square.kG1
        else moves
      else moves
    let moves :=
      if state.castle_rights.can_queenside_castle Color.kWhite then
        if !is_square_attacked mg Square.kD1 attacker state && !occupied.is_set Square.kD1 &&
            !is_square_attacked mg Square.kC1 attacker state && !occupied.is_set Square.kC1 &&
            !occupied.is_set Square.kB1 then
          moves.set_bit Square.kC1
        else moves
      else moves
    moves
  else
    let attacker := flip_color which
    let moves :=
      if state.castle_rights.can_kingside_castle Color.kBlack then
        if !is_square_attacked mg Square.kF8 attacker state && !occupied.is_set Square.kF8 &&
            !is_square_attacked mg Square.kG8 attacker state && !occupied.is_set Square.kG8 then
          moves.set_bit Square.kG8
        else moves
      else moves
    let moves :=
      if state.castle_rights.can_queenside_castle Color.kBlack then
        if !is_square_attacked mg Square.kD8 attacker state && !occupied.is_set Square.kD8 &&
            !is_square_attacked mg Square.kC8 attacker state && !occupied.is_set Square.kC8 &&
            !occupied.is_set Square.kB8 then
          moves.set_bit Square.kC8
        else moves
      else moves
    moves

/-- The function `king_moves`. -/
def king_moves (mg : Magics) (pos : Nat) (state : BoardState) : BitBoard :=
  let moves := king_attacks pos
  let color := state.get_piece_color pos
  if (state.castle_rights.can_queenside_castle color ||
      state.castle_rights.can_kingside_castle color) && !king_in_check mg color state then
    moves ||| castling_moves mg color state
  else moves

/-- The function `moves` on the state held by the board, which it only reads. -/
def moves (mg : Magics) (state : BoardState) : MoveList :=
  let move_list : MoveList := []
  let our_pieces := state.occupied_by state.turn
  let their_pieces := state.occupied_by (flip_color state.turn)
  let occupied := state.occupied
  let move_list := while_pop (fun (move_list : MoveList) (from_ : Nat) =>
    let en_passant_mask :=
      if state.en_passant ≠ Square.kNoSquare then BitBoard.from_square state.en_passant else 0
    let possible_moves := pawn_moves from_ state |||
      (pawn_attacks from_ state Color.kNoColor false &&& (their_pieces ||| en_passant_mask))
    let en_passant_set :=
      state.en_passant != Square.kNoSquare && possible_moves.is_set state.en_passant
    let possible_moves := possible_moves &&& ~~~our_pieces
    let possible_moves :=
      if en_passant_set then possible_moves.set_bit state.en_passant else possible_moves
    while_pop (fun (move_list : MoveList) (to_ : Nat) =>
      let to_rank := rank to_
      if (state.turn = Color.kWhite ∧ to_rank = kBoardRanks - 1) ∨
          (state.turn = Color.kBlack ∧ to_rank = 0) then
        let move_list := move_list.push (Move.mk3 from_ to_ PromotionType.kQueen)
        let move_list := move_list.push (Move.mk3 from_ to_ PromotionType.kRook)
        let move_list := move_list.push (Move.mk3 from_ to_ PromotionType.kKnight)
        let move_list := move_list.push (Move.mk3 from_ to_ PromotionType.kBishop)
        move_list
      else move_list.push (Move.mk2 from_ to_)) 64 possible_moves move_list)
    64 (state.pawns state.turn) move_list
  let move_list := while_pop (fun (move_list : MoveList) (from_ : Nat) =>
    let possible_moves := knight_moves from_
    let possible_moves := possible_moves &&& ~~~our_pieces
    while_pop (fun (move_list : MoveList) (to_ : Nat) =>
      move_list.push (Move.mk2 from_ to_)) 64 possible_moves move_list)
    64 (state.knights state.turn) move_list
  let move_list := while_pop (fun (move_list : MoveList) (from_ : Nat) =>
    let possible_moves := bishop_moves mg from_ occupied
    let possible_moves := possible_moves &&& ~~~our_pieces
    while_pop (fun (move_list : MoveList) (to_ : Nat) =>
      move_list.push (Move.mk2 from_ to_)) 64 possible_moves move_list)
    64 (state.bishops state.turn) move_list
  let move_list := while_pop (fun (move_list : MoveList) (from_ : Nat) =>
    let possible_moves := rook_moves mg from_ occupied
    let possible_moves := possible_moves &&& ~~~our_pieces
    while_pop (fun (move_list : MoveList) (to_ : Nat) =>
      move_list.push (Move.mk2 from_ to_)) 64 possible_moves move_list)
    64 (state.rooks state.turn) move_list
  let move_list := while_pop (fun (move_list : MoveList) (from_ : Nat) =>
    let possible_moves := rook_moves mg from_ occupied ||| bishop_moves mg from_ occupied
    let possible_moves := possible_moves &&& ~~~our_pieces
    while_pop (fun (move_list : MoveList) (to_ : Nat) =>
      move_list.push (Move.mk2 from_ to_)) 64 possible_moves move_list)
    64 (state.queens state.turn) move_list
  let move_list := while_pop (fun (move_list : MoveList) (from_ : Nat) =>
    let possible_moves := king_moves mg from_ state
    let possible_moves := possible_moves &&& ~~~our_pieces
    while_pop (fun (move_list : MoveList) (to_ : Nat) =>
      move_list.push (Move.mk2 from_ to_)) 64 possible_moves move_list)
    64 (state.king state.turn) move_list
  move_list

/-- The function `capture_moves` on the state held by the board, which it only reads. -/
def capture_moves (mg : Magics) (state : BoardState) : MoveList :=
  let move_list : MoveList := []
  let our_pieces := state.occupied_by state.turn
  let their_pieces := state.occupied_by (flip_color state.turn)
  let occupied := state.occupied
  let move_list := while_pop (fun (move_list : MoveList) (from_ : Nat) =>
    let en_passant_mask :=
      if state.en_passant ≠ Square.kNoSquare then BitBoard.from_square state.en_passant else 0
    let possible_moves := pawn_attacks from_ state Color.kNoColor false &&& (their_pieces ||| en_passant_mask)
    let en_passant_set :=
      state.en_passant != Square.kNoSquare && possible_moves.is_set state.en_passant
    let possible_moves := possible_moves &&& (~~~our_pieces &&& their_pieces)
    let possible_moves :=
      if en_passant_set then possible_moves.set_bit state.en_passant else possible_moves
    while_pop (fun (move_list : MoveList) (to_ : Nat) =>
      let to_rank := rank to_
      if (state.turn = Color.kWhite ∧ to_rank = kBoardRanks - 1) ∨
          (state.turn = Color.kBlack ∧ to_rank = 0) then
        let move_list := move_list.push (Move.mk3 from_ to_ PromotionType.kQueen)
        let move_list := move_list.push (Move.mk3 from_ to_ PromotionType.kRook)
        let move_list := move_list.push (Move.mk3 from_ to_ PromotionType.kKnight)
        let move_list := move_list.push (Move.mk3 from_ to_ PromotionType.kBishop)
        move_list
      else move_list.push (Move.mk2 from_ to_)) 64 possible_moves move_list)
    64 (state.pawns state.turn) move_list
  let move_list := while_pop (fun (move_list : MoveList) (from_ : Nat) =>
    let possible_moves := knight_moves from_
    let possible_moves := possible_moves &&& (~~~our_pieces &&& their_pieces)
    while_pop (fun (move_list : MoveList) (to_ : Nat) =>
      move_list.push (Move.mk2 from_ to_)) 64 possible_moves move_list)
    64 (state.knights state.turn) move_list
  let move_list := while_pop (fun (move_list : MoveList) (from_ : Nat) =>
    let possible_moves := bishop_moves mg from_ occupied
    let possible_moves := possible_moves &&& (~~~our_pieces &&& their_pieces)
    while_pop (fun (move_list : MoveList) (to_ : Nat) =>
      move_list.push (Move.mk2 from_ to_)) 64 possible_moves move_list)
    64 (state.bishops state.turn) move_list
  let move_list := while_pop (fun (move_list : MoveList) (from_ : Nat) =>
    let possible_moves := rook_moves mg from_ occupied
    let possible_moves := possible_moves &&& (~~~our_pieces &&& their_pieces)
    while_pop (fun (move_list : MoveList) (to_ : Nat) =>
      move_list.push (Move.mk2 from_ to_)) 64 possible_moves move_list)
    64 (state.rooks state.turn) move_list
  let move_list := while_pop (fun (move_list : MoveList) (from_ : Nat) =>
    let possible_moves := rook_moves mg from_ occupied ||| bishop_moves mg from_ occupied
    let possible_moves := possible_moves &&& (~~~our_pieces &&& their_pieces)
    while_pop (fun (move_list : MoveList) (to_ : Nat) =>
      move_list.push (Move.mk2 from_ to_)) 64 possible_moves move_list)
    64 (state.queens state.turn) move_list
  let move_list := while_pop (fun (move_list : MoveList) (from_ : Nat) =>
    let possible_moves := king_moves mg from_ state
    let possible_moves := possible_moves &&& (~~~our_pieces &&& their_pieces)
    while_pop (fun (move_list : MoveList) (to_ : Nat) =>
      move_list.push (Move.mk2 from_ to_)) 64 possible_moves move_list)
    64 (state.king state.turn) move_list
  move_list

/-- The external collaborator `Board`, taken as a parameter: the state it holds
and its `make_move` / `undo_move`. -/
structure BoardOps (Board : Type) where
  get_state : Board → BoardState
  make_move : Board → Move → Board
  undo_move : Board → Board

/-- The lambda `is_legal_move` of `legal_moves`: its result and the board it leaves. -/
def is_legal_move {Board : Type} (ops : BoardOps Board) (mg : Magics) (board : Board)
    (move : Move) : Bool × Board :=
  let board := ops.make_move board move
  let state := ops.get_state board
  let in_check := king_in_check mg (flip_color state.turn) state
  let board := ops.undo_move board
  (!in_check, board)

/-- The function `legal_moves`: the list it returns and the board it leaves. -/
def legal_moves {Board : Type} (ops : BoardOps Board) (mg : Magics) (board : Board) :
    MoveList × Board :=
  let pseudo_legal_moves := moves mg (ops.get_state board)
  pseudo_legal_moves.foldl (fun (acc : MoveList × Board) (move : Move) =>
    let r := is_legal_move ops mg acc.2 move
    if r.1 then (acc.1.push move, r.2) else (acc.1, r.2)) ([], board)

/-- The enumeration `MoveType` of the absent `move_gen.h`, the classes tested by
`filter_moves`. -/
inductive MoveType where
  | kAll
  | kCaptures
  | kQuiet
deriving DecidableEq, Repr

/-- Modelled from the spec: the accessor `get_piece_type(pos)` of the absent `board.h`,
the type of the piece standing on `pos`, `kNone` for an empty square. -/
def BoardState.get_piece_type (state : BoardState) (pos : Nat) : PieceType :=
  if (state.white_pawns ||| state.black_pawns).is_set pos then PieceType.kPawn
  else if (state.white_knights ||| state.black_knights).is_set pos then PieceType.kKnight
  else if (state.white_bishops ||| state.black_bishops).is_set pos then PieceType.kBishop
  else if (state.white_rooks ||| state.black_rooks).is_set pos then PieceType.kRook
  else if (state.white_queens ||| state.black_queens).is_set pos then PieceType.kQueen
  else if (state.white_king ||| state.black_king).is_set pos then PieceType.kKing
  else PieceType.kNone

/-- The function `Move::is_capture` of `move.cpp`; the en-passant target has a value
when it is not `kNoSquare`. -/
def Move.is_capture (m : Move) (state : BoardState) : Bool :=
  let from_ := m.get_from
  let to_ := m.get_to
  (state.get_piece_type to_ != PieceType.kNone) ||
    (state.get_piece_type from_ == PieceType.kPawn && state.en_passant != Square.kNoSquare &&
      state.en_passant == to_)

/-- The lambda `causes_check` of `filter_moves`: its result and the board it leaves. -/
def causes_check {Board : Type} (ops : BoardOps Board) (mg : Magics) (board : Board)
    (move : Move) : Bool × Board :=
  let board := ops.make_move board move
  let state := ops.get_state board
  let in_check := king_in_check mg state.turn state
  let board := ops.undo_move board
  (in_check, board)

/-- The function `filter_moves`: the list it returns and the board it leaves. The
lambda `causes_check` runs only for a move that is not a capture. -/
def filter_moves {Board : Type} (ops : BoardOps Board) (mg : Magics) (moves : MoveList)
    (type : MoveType) (board : Board) : MoveList × Board :=
  if type = MoveType.kAll then (moves, board)
  else
    moves.foldl (fun (acc : MoveList × Board) (move : Move) =>
      let state := ops.get_state acc.2
      let is_capture := move.is_capture state
      if type = MoveType.kCaptures then
        if is_capture then (acc.1.push move, acc.2) else acc
      else if type = MoveType.kQuiet then
        if !is_capture then
          let r := causes_check ops mg acc.2 move
          if !r.1 && move.get_promotion_type == PromotionType.kNone then
            (acc.1.push move, r.2)
          else (acc.1, r.2)
        else acc
      else acc) ([], board)

/-- The function `get_attacked_squares`. -/
def get_attacked_squares (mg : Magics) (state : BoardState) (attacker : Color)
    (include_king_attacks : Bool) : BitBoard :=
  let attacked : BitBoard := 0
  let occupied := state.occupied
  let attacked := while_pop (fun (attacked : BitBoard) (square : Nat) =>
    attacked ||| pawn_attacks square state Color.kNoColor false) 64 (state.pawns attacker) attacked
  let attacked := while_pop (fun (attacked : BitBoard) (square : Nat) =>
    attacked ||| knight_moves square) 64 (state.knights attacker) attacked
  let attacked := while_pop (fun (attacked : BitBoard) (square : Nat) =>
    attacked ||| bishop_moves mg square occupied) 64 (state.bishops attacker) attacked
  let attacked := while_pop (fun (attacked : BitBoard) (square : Nat) =>
    attacked ||| rook_moves mg square occupied) 64 (state.rooks attacker) attacked
  let attacked := while_pop (fun (attacked : BitBoard) (square : Nat) =>
    attacked ||| (rook_moves mg square occupied ||| bishop_moves mg square occupied)) 64
    (state.queens attacker) attacked
  if include_king_attacks then
    let king := state.king attacker
    if king.nonEmpty then attacked ||| king_attacks king.pop_lsb.1 else attacked
  else attacked

/-- The three global tables `knight_masks`, `king_masks` and `pawn_masks`. -/
structure AttackTables where
  knight_masks : Nat → BitBoard
  king_masks : Nat → BitBoard
  pawn_masks : Color → Nat → BitBoard

/-- The tables before initialization: every entry is the empty word. -/
def AttackTables.zeroed : AttackTables := ⟨fun _ => 0, fun _ => 0, fun _ _ => 0⟩

/-- The assignment `table[square] |= bb`. -/
def orAt (table : Nat → BitBoard) (square : Nat) (bb : BitBoard) : Nat → BitBoard :=
  fun i => if i = square then table i ||| bb else table i

/-- The body of the loop of `initialize_attacks` for one square. -/
def initialize_attacks_square (t : AttackTables) (square : Nat) : AttackTables :=
  let bb_pos := BitBoard.from_square square
  let knight := t.knight_masks
  let knight := orAt knight square ((bb_pos &&& ~~~FileMask.kFileH) <<< 17)
  let knight := orAt knight square ((bb_pos &&& ~~~(FileMask.kFileH ||| FileMask.kFileG)) <<< 10)
  let knight := orAt knight square ((bb_pos &&& ~~~(FileMask.kFileH ||| FileMask.kFileG)) >>> 6)
  let knight := orAt knight square ((bb_pos &&& ~~~FileMask.kFileH) >>> 15)
  let knight := orAt knight square ((bb_pos &&& ~~~FileMask.kFileA) <<< 15)
  let knight := orAt knight square ((bb_pos &&& ~~~(FileMask.kFileA ||| FileMask.kFileB)) <<< 6)
  let knight := orAt knight square ((bb_pos &&& ~~~(FileMask.kFileA ||| FileMask.kFileB)) >>> 10)
  let knight := orAt knight square ((bb_pos &&& ~~~FileMask.kFileA) >>> 17)
  let king := t.king_masks
  let king := orAt king square (shift Direction.kNorth bb_pos)
  let king := orAt king square (shift Direction.kSouth bb_pos)
  let king := orAt king square (shift Direction.kEast bb_pos)
  let king := orAt king square (shift Direction.kWest bb_pos)
  let king := orAt king square (shift Direction.kNorthEast bb_pos)
  let king := orAt king square (shift Direction.kNorthWest bb_pos)
  let king := orAt king square (shift Direction.kSouthEast bb_pos)
  let king := orAt king square (shift Direction.kSouthWest bb_pos)
  let white := t.pawn_masks Color.kWhite
  let white := orAt white square (shift Direction.kNorthEast bb_pos)
  let white := orAt white square (shift Direction.kNorthWest bb_pos)
  let black := t.pawn_masks Color.kBlack
  let black := orAt black square (shift Direction.kSouthEast bb_pos)
  let black := orAt black square (shift Direction.kSouthWest bb_pos)
  { knight_masks := knight
    king_masks := king
    pawn_masks := fun c =>
      match c with
      | Color.kWhite => white
      | Color.kBlack => black
      | Color.kNoColor => t.pawn_masks Color.kNoColor }

/-- The function `initialize_attacks` on the three tables; the call
`magics::attacks::initialize()` fills the magic tables, which are a parameter here. -/
def initialize_attacks (t : AttackTables) : AttackTables :=
  (List.range Square.kSquareCount).foldl initialize_attacks_square t

/-! ## Concrete instances used to evaluate the definitions -/

/-- The squares reached from file `f`, rank `r` by repeated steps `(df, dr)`, up to
and including the first occupied square. -/
def rayWalk (occ : Nat) (df dr : Int) : Nat → Int → Int → Nat
  | 0, _, _ => 0
  | n + 1, f, r =>
    let f1 := f + df
    let r1 := r + dr
    if f1 < 0 ∨ 8 ≤ f1 ∨ r1 < 0 ∨ 8 ≤ r1 then 0
    else
      let sq := (r1 * 8 + f1).toNat
      if occ.testBit sq then 2 ^ sq else 2 ^ sq ||| rayWalk occ df dr n f1 r1

/-- Rook attack set of a square for an occupancy, by ray walking. -/
def rookRays (pos occ : Nat) : BitBoard :=
  let f : Int := (pos % 8 : Nat)
  let r : Int := (pos / 8 : Nat)
  BitBoard.ofNat (rayWalk occ 1 0 8 f r ||| rayWalk occ (-1) 0 8 f r |||
    rayWalk occ 0 1 8 f r ||| rayWalk occ 0 (-1) 8 f r)

/-- Bishop attack set of a square for an occupancy, by ray walking. -/
def bishopRays (pos occ : Nat) : BitBoard :=
  let f : Int := (pos % 8 : Nat)
  let r : Int := (pos / 8 : Nat)
  BitBoard.ofNat (rayWalk occ 1 1 8 f r ||| rayWalk occ (-1) 1 8 f r |||
    rayWalk occ 1 (-1) 8 f r ||| rayWalk occ (-1) (-1) 8 f r)

/-- An instance of the magic tables: the full occupancy is the index (mask of all
ones, multiplier one, no shift) and the attack tables hold the ray-walk attack sets. -/
def plainMagics : Magics :=
  { kBishopMagics := fun _ => ⟨2 ^ 64 - 1, 1, 0⟩
    kRookMagics := fun _ => ⟨2 ^ 64 - 1, 1, 0⟩
    bishop_attacks := bishopRays
    rook_attacks := rookRays }

/-- The standard starting position. -/
def startState : BoardState :=
  { white_pawns := 0xFF00, white_knights := 0x42, white_bishops := 0x24, white_rooks := 0x81,
    white_queens := 0x08, white_king := 0x10,
    black_pawns := 0x00FF000000000000, black_knights := 0x4200000000000000,
    black_bishops := 0x2400000000000000, black_rooks := 0x8100000000000000,
    black_queens := 0x0800000000000000, black_king := 0x1000000000000000,
    turn := Color.kWhite, castle_rights := ⟨true, true, true, true⟩,
    en_passant := Square.kNoSquare }

/-- A small instance of the board collaborator: the current state and the stack of
earlier states. -/
structure SimpleBoard where
  state : BoardState
  history : List BoardState

/-- Relocation of one piece bitboard by a move: the moving piece leaves `from_` for
`to_`, a piece standing on `to_` is removed. -/
def relocate (bb : BitBoard) (from_ to_ : Nat) : BitBoard :=
  if bb.is_set from_ then (bb.clear_bit from_).set_bit to_ else bb.clear_bit to_

/-- Plain relocation of the moving piece, passing the turn to the other side. -/
def SimpleBoard.apply (s : BoardState) (m : Move) : BoardState :=
  { white_pawns := relocate s.white_pawns m.from_ m.to_
    white_knights := relocate s.white_knights m.from_ m.to_
    white_bishops := relocate s.white_bishops m.from_ m.to_
    white_rooks := relocate s.white_rooks m.from_ m.to_
    white_queens := relocate s.white_queens m.from_ m.to_
    white_king := relocate s.white_king m.from_ m.to_
    black_pawns := relocate s.black_pawns m.from_ m.to_
    black_knights := relocate s.black_knights m.from_ m.to_
    black_bishops := relocate s.black_bishops m.from_ m.to_
    black_rooks := relocate s.black_rooks m.from_ m.to_
    black_queens := relocate s.black_queens m.from_ m.to_
    black_king := relocate s.black_king m.from_ m.to_
    turn := flip_color s.turn
    castle_rights := s.castle_rights
    en_passant := Square.kNoSquare }

/-- The operations of `SimpleBoard`: `make_move` saves the state and relocates the
piece, `undo_move` restores the saved state. -/
def simpleOps : BoardOps SimpleBoard :=
  { get_state := fun b => b.state
    make_move := fun b m => ⟨SimpleBoard.apply b.state m, b.state :: b.history⟩
    undo_move := fun b =>
      match b.history with
      | [] => b
      | s :: rest => ⟨s, rest⟩ }

/-- A position with a white pawn on a7 next to a black knight on b8, white rooks on
a1 and h1 and both kings at home. -/
def promotionState : BoardState :=
  { white_pawns := 0x0001000000000000, white_knights := 0, white_bishops := 0,
    white_rooks := 0x81, white_queens := 0, white_king := 0x10,
    black_pawns := 0, black_knights := 0x0200000000000000, black_bishops := 0,
    black_rooks := 0, black_queens := 0, black_king := 0x1000000000000000,
    turn := Color.kWhite, castle_rights := ⟨true, true, true, true⟩,
    en_passant := Square.kNoSquare }

/-- A position with the en-passant capture e5xd6 available to White. -/
def enPassantState : BoardState :=
  { white_pawns := 0x0000001000000000, white_knights := 0, white_bishops := 0,
    white_rooks := 0, white_queens := 0, white_king := 0x10,
    black_pawns := 0x0000000800000000, black_knights := 0, black_bishops := 0,
    black_rooks := 0, black_queens := 0, black_king := 0x1000000000000000,
    turn := Color.kWhite, castle_rights := ⟨false, false, false, false⟩,
    en_passant := 43 }

/-! ## Reference vocabulary for move text -/

/-- A file letter `a`..`h`. -/
def isFileLetter (c : Char) : Prop := 'a'.toNat ≤ c.toNat ∧ c.toNat ≤ 'h'.toNat

/-- A rank digit `1`..`8`. -/
def isRankDigit (c : Char) : Prop := '1'.toNat ≤ c.toNat ∧ c.toNat ≤ '8'.toNat

instance (c : Char) : Decidable (isFileLetter c) := by unfold isFileLetter; infer_instance

instance (c : Char) : Decidable (isRankDigit c) := by unfold isRankDigit; infer_instance

/-- The promotion named by a letter, in either case; `none` for any other character. -/
def promotionOfLetter (c : Char) : Option PromotionType :=
  if c = 'q' ∨ c = 'Q' then some PromotionType.kQueen
  else if c = 'r' ∨ c = 'R' then some PromotionType.kRook
  else if c = 'b' ∨ c = 'B' then some PromotionType.kBishop
  else if c = 'n' ∨ c = 'N' then some PromotionType.kKnight
  else none

/-- What well-formed move text denotes: `none` for malformed text, otherwise the
move read off the coordinate characters and the optional promotion letter. -/
def textMeaning : List Char → Option Move
  | [f1, r1, f2, r2] =>
    if isFileLetter f1 ∧ isRankDigit r1 ∧ isFileLetter f2 ∧ isRankDigit r2 then
      some ⟨(r1.toNat - '1'.toNat) * 8 + (f1.toNat - 'a'.toNat),
        (r2.toNat - '1'.toNat) * 8 + (f2.toNat - 'a'.toNat), PromotionType.kNone⟩
    else none
  | [f1, r1, f2, r2, p] =>
    if isFileLetter f1 ∧ isRankDigit r1 ∧ isFileLetter f2 ∧ isRankDigit r2 then
      match promotionOfLetter p with
      | some promo =>
        some ⟨(r1.toNat - '1'.toNat) * 8 + (f1.toNat - 'a'.toNat),
          (r2.toNat - '1'.toNat) * 8 + (f2.toNat - 'a'.toNat), promo⟩
      | none => none
    else none
  | _ => none

/-- Text is malformed when its length is outside `[4,5]`, a coordinate character
is out of range, or it has a fifth character that is not a promotion letter. -/
def malformed (s : List Char) : Prop :=
  (s.length < 4 ∨ 5 < s.length) ∨
  ¬ (isFileLetter (s.getD 0 ' ') ∧ isRankDigit (s.getD 1 ' ') ∧
      isFileLetter (s.getD 2 ' ') ∧ isRankDigit (s.getD 3 ' ')) ∨
  (s.length = 5 ∧ promotionOfLetter (s.getD 4 ' ') = none)

/-- Conversion of every ASCII letter of a text to lowercase. -/
def lower (s : List Char) : List Char := s.map Char.toLower

/-- Conversion to lowercase of the characters after the four coordinate characters. -/
def lowerPromotionLetter (s : List Char) : List Char := s.take 4 ++ lower (s.drop 4)

/-! ## Reference vocabulary for move generation -/

/-- The last-rank test of the pawn loops: rank index 7 for White to move, 0 for Black. -/
def onLastRank (turn : Color) (to_ : Nat) : Prop :=
  (turn = Color.kWhite ∧ rank to_ = kBoardRanks - 1) ∨ (turn = Color.kBlack ∧ rank to_ = 0)

instance (turn : Color) (to_ : Nat) : Decidable (onLastRank turn to_) := by
  unfold onLastRank; infer_instance

/-- The four promotion moves for a pawn step, in the order they are pushed. -/
def promotionMoves (from_ to_ : Nat) : List Move :=
  [Move.mk3 from_ to_ PromotionType.kQueen, Move.mk3 from_ to_ PromotionType.kRook,
    Move.mk3 from_ to_ PromotionType.kKnight, Move.mk3 from_ to_ PromotionType.kBishop]

/-- The moves pushed for one pawn destination. -/
def pawnPushes (turn : Color) (from_ to_ : Nat) : List Move :=
  if onLastRank turn to_ then promotionMoves from_ to_ else [Move.mk2 from_ to_]

/-- The destination set of the pawn on `from_` in `moves`. -/
def movesPawnTargets (state : BoardState) (from_ : Nat) : BitBoard :=
  let en_passant_mask :=
    if state.en_passant ≠ Square.kNoSquare then BitBoard.from_square state.en_passant else 0
  let possible_moves := pawn_moves from_ state |||
    (pawn_attacks from_ state Color.kNoColor false &&&
      (state.occupied_by (flip_color state.turn) ||| en_passant_mask))
  let en_passant_set :=
    state.en_passant != Square.kNoSquare && possible_moves.is_set state.en_passant
  let possible_moves := possible_moves &&& ~~~(state.occupied_by state.turn)
  if en_passant_set then possible_moves.set_bit state.en_passant else possible_moves

/-- The destination set of the pawn on `from_` in `capture_moves`. -/
def capturePawnTargets (state : BoardState) (from_ : Nat) : BitBoard :=
  let en_passant_mask :=
    if state.en_passant ≠ Square.kNoSquare then BitBoard.from_square state.en_passant else 0
  let possible_moves := pawn_attacks from_ state Color.kNoColor false &&&
    (state.occupied_by (flip_color state.turn) ||| en_passant_mask)
  let en_passant_set :=
    state.en_passant != Square.kNoSquare && possible_moves.is_set state.en_passant
  let possible_moves := possible_moves &&&
    (~~~(state.occupied_by state.turn) &&& state.occupied_by (flip_color state.turn))
  if en_passant_set then possible_moves.set_bit state.en_passant else possible_moves

/-- The moves of the pawn loop for a destination function, as a list. -/
def pawnSection (turn : Color) (pawns : BitBoard) (targets : Nat → BitBoard) : List Move :=
  pawns.squares.flatMap fun from_ => (targets from_).squares.flatMap (pawnPushes turn from_)

/-- The moves of a piece loop for a destination function, as a list. -/
def pieceSection (pieces : BitBoard) (targets : Nat → BitBoard) : List Move :=
  pieces.squares.flatMap fun from_ => (targets from_).squares.map (Move.mk2 from_)

/-- The moves of the five piece loops after the pawn loop, where `restrict` is the mask
applied to every destination set. -/
def pieceSections (mg : Magics) (state : BoardState) (restrict : BitBoard) : List Move :=
  pieceSection (state.knights state.turn) (fun from_ => knight_moves from_ &&& restrict) ++
    pieceSection (state.bishops state.turn)
      (fun from_ => bishop_moves mg from_ state.occupied &&& restrict) ++
    pieceSection (state.rooks state.turn)
      (fun from_ => rook_moves mg from_ state.occupied &&& restrict) ++
    pieceSection (state.queens state.turn)
      (fun from_ => (rook_moves mg from_ state.occupied ||| bishop_moves mg from_ state.occupied)
        &&& restrict) ++
    pieceSection (state.king state.turn) (fun from_ => king_moves mg from_ state &&& restrict)

/-- The twelve piece bitboards of a state. -/
def BoardState.boards (state : BoardState) : List BitBoard :=
  [state.white_pawns, state.white_knights, state.white_bishops, state.white_rooks,
    state.white_queens, state.white_king, state.black_pawns, state.black_knights,
    state.black_bishops, state.black_rooks, state.black_queens, state.black_king]

/-- The invariant "at most one piece per square": the piece bitboards are pairwise
disjoint. -/
def BoardState.one_piece_per_square (state : BoardState) : Prop :=
  state.boards.Pairwise fun a b => a &&& b = 0

instance (state : BoardState) : Decidable state.one_piece_per_square := by
  unfold BoardState.one_piece_per_square; infer_instance

/-- Promotion expansion of a generated list `L` whose pawn loop has the destination
sets `targets`: for a pawn square of the side to move and every member of its
destination set on the last rank, the list holds the four promotion moves of that pair,
consecutive and in the order Queen, Rook, Knight, Bishop, and no other move of that
pair; a move of the list that starts on a pawn square goes to a member of the
destination set of that square; every other move of the list has promotion `kNone`. -/
def PromotionExpansion (state : BoardState) (targets : Nat → BitBoard) (L : List Move) : Prop :=
  (∀ from_ to_, (state.pawns state.turn).is_set from_ = true →
      (targets from_).is_set to_ = true → onLastRank state.turn to_ →
      ∃ pre post, L = pre ++ promotionMoves from_ to_ ++ post ∧
        ∀ m ∈ pre ++ post, ¬ (m.from_ = from_ ∧ m.to_ = to_)) ∧
  (∀ m ∈ L, (state.pawns state.turn).is_set m.from_ = true →
      (targets m.from_).is_set m.to_ = true) ∧
  (∀ m ∈ L, ¬ ((state.pawns state.turn).is_set m.from_ = true ∧ onLastRank state.turn m.to_) →
      m.promotion = PromotionType.kNone)

/-- A position with a white pawn and a white queen both on a7, next to a black knight
on b8, and both kings at home. -/
def pawnQueenState : BoardState :=
  { white_pawns := 0x0001000000000000, white_knights := 0, white_bishops := 0,
    white_rooks := 0, white_queens := 0x0001000000000000, white_king := 0x10,
    black_pawns := 0, black_knights := 0x0200000000000000, black_bishops := 0,
    black_rooks := 0, black_queens := 0, black_king := 0x1000000000000000,
    turn := Color.kWhite, castle_rights := ⟨false, false, false, false⟩,
    en_passant := Square.kNoSquare }

/-- The square with file index `file` on the back rank of a color: rank 1 for White,
rank 8 for Black. -/
def backRank (c : Color) (file : Nat) : Nat :=
  match c with
  | Color.kBlack => 56 + file
  | _ => file

/-- The file letter of a square: `a` plus the file index `square % 8`. -/
def fileLetter (square : Nat) : Char := Char.ofNat ('a'.toNat + square % 8)

/-- The rank digit of a square: `1` plus the rank index `square / 8`. -/
def rankDigit (square : Nat) : Char := Char.ofNat ('1'.toNat + square / 8)

/-- The text written after the coordinates for a promotion. -/
def promotionSuffix : PromotionType → List Char
  | PromotionType.kQueen => ['q']
  | PromotionType.kRook => ['r']
  | PromotionType.kBishop => ['b']
  | PromotionType.kKnight => ['n']
  | PromotionType.kAny => ['q']
  | PromotionType.kNone => []

/-- A position with a white knight on b5, white pawns on d4 and e5, a black pawn on d5
that has just advanced two squares (en-passant target d6), and both kings at home. -/
def knightEnPassantState : BoardState :=
  { white_pawns := 0x0000001008000000, white_knights := 0x0000000200000000,
    white_bishops := 0, white_rooks := 0, white_queens := 0, white_king := 0x10,
    black_pawns := 0x0000000800000000, black_knights := 0, black_bishops := 0,
    black_rooks := 0, black_queens := 0, black_king := 0x1000000000000000,
    turn := Color.kWhite, castle_rights := ⟨false, false, false, false⟩,
    en_passant := 43 }

/-- The capture test as the claim words it: the destination is occupied by a piece of
the opponent of the side to move, or is the en-passant target. -/
def claimedCapture (state : BoardState) (m : Move) : Bool :=
  (state.occupied_by (flip_color state.turn)).is_set m.to_ ||
    (state.en_passant != Square.kNoSquare && state.en_passant == m.to_)

/-- The capture test of the code in terms of occupancy: the destination is occupied
by a piece of either color, or the source holds a pawn and the destination is the
en-passant target. -/
def occupancyCapture (state : BoardState) (m : Move) : Bool :=
  state.occupied.is_set m.to_ ||
    ((state.white_pawns ||| state.black_pawns).is_set m.from_ &&
      state.en_passant != Square.kNoSquare && state.en_passant == m.to_)

/-- The quiet test: the move is not a capture, has promotion `kNone`, and after
`make_move` the king of the side now to move is not in check. -/
def quietMove {Board : Type} (ops : BoardOps Board) (mg : Magics) (board : Board)
    (m : Move) : Bool :=
  !m.is_capture (ops.get_state board) && (m.promotion == PromotionType.kNone) &&
    !king_in_check mg (ops.get_state (ops.make_move board m)).turn
      (ops.get_state (ops.make_move board m))

/-- The file index of a square. -/
def fileOf (square : Nat) : Nat := square % 8

/-- A knight jump between two squares: the file and rank distances are (1,2) or (2,1). -/
def knightJump (s t : Nat) : Prop :=
  (Int.natAbs ((fileOf t : Int) - fileOf s) = 1 ∧ Int.natAbs ((rank t : Int) - rank s) = 2) ∨
    (Int.natAbs ((fileOf t : Int) - fileOf s) = 2 ∧ Int.natAbs ((rank t : Int) - rank s) = 1)

instance (s t : Nat) : Decidable (knightJump s t) := by unfold knightJump; infer_instance

/-- The rank of a piece type in the enumeration order of `moves`. -/
def pieceRank : PieceType → Nat
  | PieceType.kPawn => 0
  | PieceType.kKnight => 1
  | PieceType.kBishop => 2
  | PieceType.kRook => 3
  | PieceType.kQueen => 4
  | PieceType.kKing => 5
  | PieceType.kNone => 6

/-- The rank of a promotion in the order Queen, Rook, Knight, Bishop; a plain move
ranks first. -/
def promotionRank : PromotionType → Nat
  | PromotionType.kNone => 0
  | PromotionType.kQueen => 1
  | PromotionType.kRook => 2
  | PromotionType.kKnight => 3
  | PromotionType.kBishop => 4
  | PromotionType.kAny => 5

/-- The sort key of a move: rank of the type of the piece on the source square,
source, destination, promotion rank. -/
def moveKey (state : BoardState) (m : Move) : Nat × Nat × Nat × Nat :=
  (pieceRank (state.get_piece_type m.from_), m.from_, m.to_, promotionRank m.promotion)

/-- Strict lexicographic order on keys. -/
def keyLt (a b : Nat × Nat × Nat × Nat) : Prop :=
  a.1 < b.1 ∨ (a.1 = b.1 ∧ (a.2.1 < b.2.1 ∨ (a.2.1 = b.2.1 ∧
    (a.2.2.1 < b.2.2.1 ∨ (a.2.2.1 = b.2.2.1 ∧ a.2.2.2 < b.2.2.2)))))

instance (a b : Nat × Nat × Nat × Nat) : Decidable (keyLt a b) := by
  unfold keyLt; infer_instance

/-- Strict lexicographic order on (source, destination, promotion rank). -/
def sectionLt (a b : Move) : Prop :=
  a.from_ < b.from_ ∨ (a.from_ = b.from_ ∧ (a.to_ < b.to_ ∨ (a.to_ = b.to_ ∧
    promotionRank a.promotion < promotionRank b.promotion)))

/-- A position that breaks the invariant: a white rook and a white queen both stand on
a1; the kings are at home. -/
def overlapState : BoardState :=
  { white_pawns := 0, white_knights := 0, white_bishops := 0, white_rooks := 0x01,
    white_queens := 0x01, white_king := 0x10,
    black_pawns := 0, black_knights := 0, black_bishops := 0, black_rooks := 0,
    black_queens := 0, black_king := 0x1000000000000000,
    turn := Color.kWhite, castle_rights := ⟨false, false, false, false⟩,
    en_passant := Square.kNoSquare }

/-- Symmetry of the rook and bishop lookups for one occupancy: `b` is in the attack
set of `a` exactly when `a` is in the attack set of `b`. -/
def slidersSymmetric (mg : Magics) (occupied : BitBoard) : Prop :=
  ∀ a, a < 64 → ∀ b, b < 64 →
    (rook_moves mg a occupied).is_set b = (rook_moves mg b occupied).is_set a ∧
    (bishop_moves mg a occupied).is_set b = (bishop_moves mg b occupied).is_set a

instance (mg : Magics) (occupied : BitBoard) : Decidable (slidersSymmetric mg occupied) := by
  unfold slidersSymmetric; infer_instance

/-- A color has at most one king on the board. -/
def atMostOneKing (state : BoardState) (c : Color) : Prop :=
  ∀ a, a < 64 → ∀ b, b < 64 →
    (state.king c).is_set a = true → (state.king c).is_set b = true → a = b

instance (state : BoardState) (c : Color) : Decidable (atMostOneKing state c) := by
  unfold atMostOneKing; infer_instance

/-- A position with two white kings, on a1 and h1, and the black king on e8. -/
def twoKingsState : BoardState :=
  { white_pawns := 0, white_knights := 0, white_bishops := 0, white_rooks := 0,
    white_queens := 0, white_king := 0x81,
    black_pawns := 0, black_knights := 0, black_bishops := 0, black_rooks := 0,
    black_queens := 0, black_king := 0x1000000000000000,
    turn := Color.kWhite, castle_rights := ⟨false, false, false, false⟩,
    en_passant := Square.kNoSquare }

/-- A position with the white king on a1, a white rook on h1 and the black king on e8. -/
def rookKingState : BoardState :=
  { white_pawns := 0, white_knights := 0, white_bishops := 0, white_rooks := 0x80,
    white_queens := 0, white_king := 0x01,
    black_pawns := 0, black_knights := 0, black_bishops := 0, black_rooks := 0,
    black_queens := 0, black_king := 0x1000000000000000,
    turn := Color.kWhite, castle_rights := ⟨false, false, false, false⟩,
    en_passant := Square.kNoSquare }

/-- The vectors of twelve bits with at most one bit set. -/
def oneHots : List (List Bool) :=
  [[false, false, false, false, false, false, false, false, false, false, false, false],
    [true, false, false, false, false, false, false, false, false, false, false, false],
    [false, true, false, false, false, false, false, false, false, false, false, false],
    [false, false, true, false, false, false, false, false, false, false, false, false],
    [false, false, false, true, false, false, false, false, false, false, false, false],
    [false, false, false, false, true, false, false, false, false, false, false, false],
    [false, false, false, false, false, true, false, false, false, false, false, false],
    [false, false, false, false, false, false, true, false, false, false, false, false],
    [false, false, false, false, false, false, false, true, false, false, false, false],
    [false, false, false, false, false, false, false, false, true, false, false, false],
    [false, false, false, false, false, false, false, false, false, true, false, false],
    [false, false, false, false, false, false, false, false, false, false, true, false],
    [false, false, false, false, false, false, false, false, false, false, false, true]]

/-! ## Theorems about `move.cpp` -/

theorem std_to_string_digit : ∀ r, r < 8 → std_to_string (r + 1) = [Char.ofNat ('1'.toNat + r)] := by
  decide

theorem toNat_file_letter : ∀ f, f < 8 → (Char.ofNat ('a'.toNat + f)).toNat = 'a'.toNat + f := by
  decide

theorem toNat_rank_digit : ∀ r, r < 8 → (Char.ofNat ('1'.toNat + r)).toNat = '1'.toNat + r := by
  decide

/-- C1: parsing the text of a move gives the move back, for every move with squares
below 64, a promotion other than `kAny`, and different from the null move. -/
theorem from_str_to_string (state : BoardState) (m : Move) (hf : m.from_ < 64) (ht : m.to_ < 64)
    (hp : m.promotion ≠ PromotionType.kAny) (hn : m ≠ Move.null_move) :
    Move.from_str state (Move.to_string m) = some m := by
  obtain ⟨f, t, p⟩ := m
  simp only at hf ht hp
  have h1 : f / 8 < 8 := by omega
  have h2 : f % 8 < 8 := by omega
  have h3 : t / 8 < 8 := by omega
  have h4 : t % 8 < 8 := by omega
  have e1 : (Char.ofNat (97 + f % 8)).toNat = 97 + f % 8 := toNat_file_letter _ h2
  have e2 : (Char.ofNat (49 + f / 8)).toNat = 49 + f / 8 := toNat_rank_digit _ h1
  have e3 : (Char.ofNat (97 + t % 8)).toNat = 97 + t % 8 := toNat_file_letter _ h4
  have e4 : (Char.ofNat (49 + t / 8)).toNat = 49 + t / 8 := toNat_rank_digit _ h3
  have hf8 : (f / 8) * 8 + f % 8 = f := by omega
  have ht8 : (t / 8) * 8 + t % 8 = t := by omega
  unfold Move.to_string
  rw [if_neg hn]
  simp only [Move.get_from, Move.get_to, Move.get_promotion_type, kBoardRanks, kBoardFiles,
    std_to_string_digit _ h1, std_to_string_digit _ h3]
  cases p <;>
    simp [Move.from_str, charAt, rank_file_to_pos, kBoardFiles, Move.mk2, Move.mk3] at hp ⊢ <;>
    rw [e1, e2, e3, e4] <;> omega

/-- Witness for C1 at the move e7e8 promoting to a queen. -/
theorem from_str_to_string_witness :
    Move.from_str emptyState (Move.to_string (Move.mk3 52 60 PromotionType.kQueen)) =
      some (Move.mk3 52 60 PromotionType.kQueen) :=
  from_str_to_string emptyState (Move.mk3 52 60 PromotionType.kQueen) (by decide) (by decide)
    (by decide) (by decide)

/-- The parser computes the meaning of the text. -/
theorem from_str_eq_meaning (state : BoardState) (s : List Char) :
    Move.from_str state s = textMeaning s := by
  match s with
  | [] => simp [Move.from_str, textMeaning]
  | [_] => simp [Move.from_str, textMeaning]
  | [_, _] => simp [Move.from_str, textMeaning]
  | [_, _, _] => simp [Move.from_str, textMeaning]
  | [f1, r1, f2, r2] =>
    simp only [Move.from_str, textMeaning, charAt, isFileLetter, isRankDigit,
      rank_file_to_pos, kBoardFiles, Move.mk2]
    simp
    split_ifs with h1 h2 h2
    · omega
    · rfl
    · have e1 : ((r1.toNat : Int) - 49).toNat = r1.toNat - 49 := by omega
      have e2 : ((f1.toNat : Int) - 97).toNat = f1.toNat - 97 := by omega
      have e3 : ((r2.toNat : Int) - 49).toNat = r2.toNat - 49 := by omega
      have e4 : ((f2.toNat : Int) - 97).toNat = f2.toNat - 97 := by omega
      rw [e1, e2, e3, e4]
    · omega
  | [f1, r1, f2, r2, p] =>
    simp only [Move.from_str, textMeaning, charAt, isFileLetter, isRankDigit,
      rank_file_to_pos, kBoardFiles, Move.mk3, promotionOfLetter]
    simp
    split_ifs with h1 h2 <;> first
      | omega
      | rfl
      | (have e1 : ((r1.toNat : Int) - 49).toNat = r1.toNat - 49 := by omega
         have e2 : ((f1.toNat : Int) - 97).toNat = f1.toNat - 97 := by omega
         have e3 : ((r2.toNat : Int) - 49).toNat = r2.toNat - 49 := by omega
         have e4 : ((f2.toNat : Int) - 97).toNat = f2.toNat - 97 := by omega
         rw [e1, e2, e3, e4])
  | _ :: _ :: _ :: _ :: _ :: _ :: _ => simp [Move.from_str, textMeaning]

/-- The meaning is absent exactly for malformed text. -/
theorem meaning_none_iff (s : List Char) : textMeaning s = none ↔ malformed s := by
  match s with
  | [] => simp [malformed, textMeaning]
  | [_] => simp [malformed, textMeaning]
  | [_, _] => simp [malformed, textMeaning]
  | [_, _, _] => simp [malformed, textMeaning]
  | [f1, r1, f2, r2] => simp [malformed, textMeaning]
  | [f1, r1, f2, r2, p] =>
    simp only [malformed, textMeaning]
    cases h : promotionOfLetter p <;> simp [h]
  | _ :: _ :: _ :: _ :: _ :: _ :: _ => simp [malformed, textMeaning]

/-- C3: `Move::from_str` yields no value exactly for malformed text (length outside
`[4,5]`, a coordinate character out of range, or an unrecognised fifth character),
and otherwise the move read off the coordinates and the promotion letter. -/
theorem from_str_none_iff_malformed (state : BoardState) (s : List Char) :
    (Move.from_str state s = none ↔ malformed s) ∧
      Move.from_str state s = textMeaning s := by
  refine ⟨?_, from_str_eq_meaning state s⟩
  rw [from_str_eq_meaning, meaning_none_iff]

/-- C2 as stated fails: the text "null" is not parsed to the null move. -/
theorem null_text_not_parsed :
    ¬ (Move.to_string Move.null_move = "null".toList ∧
        Move.from_str emptyState "null".toList = some Move.null_move) := by
  decide

/-- C2 amended: the null move is written as "null", and "null" is rejected by the
parser for every state. -/
theorem null_move_text (state : BoardState) :
    Move.to_string Move.null_move = "null".toList ∧
      Move.from_str state "null".toList = none := by
  constructor
  · decide
  · rw [from_str_eq_meaning]
    decide

/-- C4 as stated fails: "E2E4" and its lowercase form parse differently. -/
theorem upper_case_files_rejected :
    Move.from_str emptyState "E2E4".toList ≠ Move.from_str emptyState (lower "E2E4".toList) := by
  decide

theorem promotionOfLetter_toLower (p : Char) :
    promotionOfLetter p.toLower = promotionOfLetter p := by
  have key : ∀ n, n < 91 → 65 ≤ n →
      promotionOfLetter (Char.ofNat n).toLower = promotionOfLetter (Char.ofNat n) := by
    decide
  by_cases h : 65 ≤ p.toNat ∧ p.toNat ≤ 90
  · have := key p.toNat (by omega) h.1
    rwa [Char.ofNat_toNat] at this
  · have : p.toLower = p := by
      unfold Char.toLower
      simp only [ge_iff_le]
      rw [if_neg h]
    rw [this]

theorem lowerPromotionLetter_eq (s : List Char) :
    textMeaning (lowerPromotionLetter s) = textMeaning s := by
  match s with
  | [] => rfl
  | [_] => rfl
  | [_, _] => rfl
  | [_, _, _] => rfl
  | [f1, r1, f2, r2] => rfl
  | [f1, r1, f2, r2, p] =>
    have hp := promotionOfLetter_toLower p
    simp only [lowerPromotionLetter, lower, textMeaning, List.take, List.drop, List.map,
      List.cons_append, List.nil_append, hp]
  | _ :: _ :: _ :: _ :: _ :: _ :: _ => simp [lowerPromotionLetter, lower, textMeaning]

/-- C4 amended: only the promotion letter is case-insensitive; converting the
characters after the four coordinate characters to lowercase never changes the result. -/
theorem from_str_lowerPromotionLetter (state : BoardState) (s : List Char) :
    Move.from_str state s = Move.from_str state (lowerPromotionLetter s) := by
  rw [from_str_eq_meaning, from_str_eq_meaning, lowerPromotionLetter_eq]

/-! ## Bitboard membership -/

theorem BitBoard.is_set_lt (a : BitBoard) {i : Nat} (h : a.is_set i = true) : i < 64 := by
  by_contra hi
  have h1 : a.bits < 2 ^ i :=
    Nat.lt_of_lt_of_le a.lt (Nat.pow_le_pow_right (by decide) (by omega))
  rw [BitBoard.is_set, Nat.testBit_lt_two_pow h1] at h
  exact Bool.noConfusion h

theorem BitBoard.is_set_ofNat (n i : Nat) :
    (BitBoard.ofNat n).is_set i = (decide (i < 64) && n.testBit i) := by
  exact Nat.testBit_mod_two_pow n 64 i

theorem BitBoard.is_set_zero (i : Nat) : (0 : BitBoard).is_set i = false := by
  show (BitBoard.ofNat 0).is_set i = false
  simp [BitBoard.is_set_ofNat]

theorem BitBoard.is_set_and (a b : BitBoard) (i : Nat) :
    (a &&& b).is_set i = (a.is_set i && b.is_set i) := by
  show (BitBoard.and a b).is_set i = _
  simp [BitBoard.is_set, BitBoard.and]

theorem BitBoard.is_set_or (a b : BitBoard) (i : Nat) :
    (a ||| b).is_set i = (a.is_set i || b.is_set i) := by
  show (BitBoard.or a b).is_set i = _
  simp [BitBoard.is_set, BitBoard.or]

theorem BitBoard.is_set_not (a : BitBoard) (i : Nat) :
    (~~~a).is_set i = (decide (i < 64) && !a.is_set i) := by
  show (BitBoard.not a).is_set i = _
  rw [BitBoard.not, BitBoard.is_set_ofNat]
  have h : 2 ^ 64 - 1 - a.bits = 2 ^ 64 - (a.bits + 1) := by omega
  rw [h, Nat.testBit_two_pow_sub_succ a.lt]
  simp [BitBoard.is_set]

theorem BitBoard.is_set_from_square (sq i : Nat) :
    (BitBoard.from_square sq).is_set i = (decide (i < 64) && decide (sq = i)) := by
  rw [BitBoard.from_square, BitBoard.is_set_ofNat, Nat.one_shiftLeft, Nat.testBit_two_pow]

theorem BitBoard.is_set_set_bit (a : BitBoard) (sq i : Nat) :
    (a.set_bit sq).is_set i = (a.is_set i || (decide (i < 64) && decide (sq = i))) := by
  rw [BitBoard.set_bit, BitBoard.is_set_or, BitBoard.is_set_from_square]

theorem BitBoard.is_set_clear_bit (a : BitBoard) (sq i : Nat) :
    (a.clear_bit sq).is_set i = (a.is_set i && !decide (sq = i)) := by
  rw [BitBoard.clear_bit, BitBoard.is_set_and, BitBoard.is_set_not, BitBoard.is_set_from_square]
  cases h : a.is_set i
  · simp
  · have := a.is_set_lt h
    simp [this]

theorem BitBoard.mem_squares (a : BitBoard) (i : Nat) : i ∈ a.squares ↔ a.is_set i = true := by
  simp only [BitBoard.squares, List.mem_filter, List.mem_range]
  exact ⟨fun h => h.2, fun h => ⟨a.is_set_lt h, h⟩⟩

theorem BitBoard.squares_nodup (a : BitBoard) : a.squares.Nodup :=
  (List.nodup_range 64).filter _

theorem BitBoard.squares_eq_nil_of_empty (a : BitBoard) (h : a.nonEmpty = false) :
    a.squares = [] := by
  have h0 : a.bits = 0 := by simpa [BitBoard.nonEmpty] using h
  simp [BitBoard.squares, BitBoard.is_set, h0]

theorem BitBoard.squares_ne_nil_of_nonEmpty (a : BitBoard) (h : a.nonEmpty = true) :
    a.squares ≠ [] := by
  have h0 : a.bits ≠ 0 := by simpa [BitBoard.nonEmpty] using h
  obtain ⟨i, hi⟩ := Nat.ne_zero_implies_bit_true h0
  have : i ∈ a.squares := (a.mem_squares i).2 hi
  exact List.ne_nil_of_mem this

/-- Removing the first hit of a filter from a duplicate-free list. -/
theorem filter_remove_head {l : List Nat} (hl : l.Nodup) (p : Nat → Bool) {k : Nat}
    {rest : List Nat} (h : l.filter p = k :: rest) :
    l.filter (fun i => p i && !decide (k = i)) = rest := by
  induction l with
  | nil => simp at h
  | cons a l ih =>
    rw [List.nodup_cons] at hl
    by_cases hp : p a = true
    · rw [List.filter_cons_of_pos hp] at h
      injection h with h1 h2
      subst h1
      rw [List.filter_cons_of_neg (by simp)]
      rw [← h2]
      apply List.filter_congr
      intro x hx
      have : a ≠ x := fun e => hl.1 (e ▸ hx)
      simp [this]
    · rw [List.filter_cons_of_neg hp] at h
      rw [List.filter_cons_of_neg (by simp [hp])]
      exact ih hl.2 h

theorem find?_eq_head?_filter (p : Nat → Bool) (l : List Nat) :
    l.find? p = (l.filter p).head? := by
  induction l with
  | nil => rfl
  | cons a l ih =>
    cases hp : p a
    · rw [List.find?_cons_of_neg _ (by simp [hp]), List.filter_cons_of_neg (by simp [hp]), ih]
    · rw [List.find?_cons_of_pos _ hp, List.filter_cons_of_pos hp]
      rfl

theorem BitBoard.get_lsb_pos_eq (a : BitBoard) {k : Nat} {rest : List Nat}
    (h : a.squares = k :: rest) : a.get_lsb_pos = k := by
  have h1 : (List.range 64).find? a.is_set = (a.squares).head? := by
    rw [BitBoard.squares, find?_eq_head?_filter]
  rw [BitBoard.get_lsb_pos, h1, h]
  rfl

theorem BitBoard.squares_clear_lsb (a : BitBoard) {k : Nat} {rest : List Nat}
    (h : a.squares = k :: rest) : (a.clear_bit k).squares = rest := by
  rw [← filter_remove_head (List.nodup_range 64) a.is_set h]
  apply List.filter_congr
  intro x _
  exact a.is_set_clear_bit k x

/-- The extraction loop visits the members in ascending order, all of them. -/
theorem while_pop_fuel {σ : Type} (body : σ → Nat → σ) :
    ∀ (fuel : Nat) (bb : BitBoard) (acc : σ), bb.squares.length ≤ fuel →
      while_pop body fuel bb acc = bb.squares.foldl body acc := by
  intro fuel
  induction fuel with
  | zero =>
    intro bb acc h
    have : bb.squares = [] := List.length_eq_zero.1 (Nat.le_zero.1 h)
    simp [while_pop, this]
  | succ n ih =>
    intro bb acc h
    cases hne : bb.nonEmpty
    · simp [while_pop, hne, bb.squares_eq_nil_of_empty hne]
    · obtain ⟨k, rest, hk⟩ := List.exists_cons_of_ne_nil (bb.squares_ne_nil_of_nonEmpty hne)
      have h1 := bb.get_lsb_pos_eq hk
      have h2 := bb.squares_clear_lsb hk
      simp only [while_pop, hne, if_true, BitBoard.pop_lsb, h1]
      rw [ih _ _ (by rw [h2]; rw [hk] at h; simpa using h), h2, hk]
      rfl

theorem while_pop_eq_foldl {σ : Type} (body : σ → Nat → σ) (bb : BitBoard) (acc : σ) :
    while_pop body 64 bb acc = bb.squares.foldl body acc := by
  apply while_pop_fuel
  calc bb.squares.length ≤ (List.range 64).length := List.length_filter_le _ _
    _ = 64 := List.length_range 64

/-! ## The generators as lists -/

theorem foldl_append_flatMap {α : Type} (body : List Move → α → List Move) (g : α → List Move)
    (h : ∀ ml x, body ml x = ml ++ g x) :
    ∀ (l : List α) (init : List Move), l.foldl body init = init ++ l.flatMap g := by
  intro l
  induction l with
  | nil => intro init; simp
  | cons a l ih =>
    intro init
    rw [List.foldl_cons, ih, h, List.flatMap_cons, List.append_assoc]

theorem piece_loop_eq (targets : Nat → BitBoard) (pieces : BitBoard) (init : MoveList) :
    while_pop (fun (move_list : MoveList) (from_ : Nat) =>
      while_pop (fun (move_list : MoveList) (to_ : Nat) =>
        move_list.push (Move.mk2 from_ to_)) 64 (targets from_) move_list) 64 pieces init =
      init ++ pieceSection pieces targets := by
  rw [while_pop_eq_foldl]
  apply foldl_append_flatMap
  intro ml from_
  rw [while_pop_eq_foldl, List.map_eq_flatMap]
  exact foldl_append_flatMap _ (fun to_ => [Move.mk2 from_ to_]) (fun _ _ => rfl) _ _

theorem pawn_loop_eq (turn : Color) (targets : Nat → BitBoard) (pawns : BitBoard)
    (init : MoveList) :
    while_pop (fun (move_list : MoveList) (from_ : Nat) =>
      while_pop (fun (move_list : MoveList) (to_ : Nat) =>
        if (turn = Color.kWhite ∧ rank to_ = kBoardRanks - 1) ∨
            (turn = Color.kBlack ∧ rank to_ = 0) then
          (((move_list.push (Move.mk3 from_ to_ PromotionType.kQueen)).push
            (Move.mk3 from_ to_ PromotionType.kRook)).push
            (Move.mk3 from_ to_ PromotionType.kKnight)).push
            (Move.mk3 from_ to_ PromotionType.kBishop)
        else move_list.push (Move.mk2 from_ to_)) 64 (targets from_) move_list) 64 pawns init =
      init ++ pawnSection turn pawns targets := by
  rw [while_pop_eq_foldl]
  apply foldl_append_flatMap
  intro ml from_
  rw [while_pop_eq_foldl]
  apply foldl_append_flatMap
  intro ml to_
  unfold pawnPushes onLastRank promotionMoves
  split_ifs <;> simp [MoveList.push]

/-- The list built by `moves`: the pawn loop followed by the five piece loops. -/
theorem moves_eq (mg : Magics) (state : BoardState) :
    moves mg state =
      pawnSection state.turn (state.pawns state.turn) (movesPawnTargets state) ++
        pieceSections mg state (~~~(state.occupied_by state.turn)) := by
  unfold moves
  dsimp only
  rw [piece_loop_eq, piece_loop_eq, piece_loop_eq, piece_loop_eq, piece_loop_eq, pawn_loop_eq]
  simp only [pieceSections, List.nil_append, List.append_assoc]
  rfl

/-- The list built by `capture_moves`: the pawn loop followed by the five piece loops. -/
theorem capture_moves_eq (mg : Magics) (state : BoardState) :
    capture_moves mg state =
      pawnSection state.turn (state.pawns state.turn) (capturePawnTargets state) ++
        pieceSections mg state
          (~~~(state.occupied_by state.turn) &&& state.occupied_by (flip_color state.turn)) := by
  unfold capture_moves
  dsimp only
  rw [piece_loop_eq, piece_loop_eq, piece_loop_eq, piece_loop_eq, piece_loop_eq, pawn_loop_eq]
  simp only [pieceSections, List.nil_append, List.append_assoc]
  rfl

/-! ## Theorems about `legal_moves` -/

theorem legal_moves_fold {Board : Type} (ops : BoardOps Board) (mg : Magics) (board : Board)
    (keep : Move → Bool)
    (h : ∀ m, is_legal_move ops mg board m = (keep m, board)) :
    ∀ (l : List Move) (acc : MoveList),
      l.foldl (fun (acc : MoveList × Board) (move : Move) =>
        let r := is_legal_move ops mg acc.2 move
        if r.1 then (acc.1.push move, r.2) else (acc.1, r.2)) (acc, board) =
      (acc ++ l.filter keep, board) := by
  intro l
  induction l with
  | nil => intro acc; simp
  | cons a l ih =>
    intro acc
    rw [List.foldl_cons]
    dsimp only
    rw [h a]
    cases hk : keep a
    · simp only [Bool.false_eq_true, if_false]
      rw [ih, List.filter_cons_of_neg (by simp [hk])]
    · simp only [if_true]
      rw [ih, List.filter_cons_of_pos hk, MoveList.push, List.append_assoc]
      rfl

/-- C5: `legal_moves` returns the moves of `moves`, in order, that leave the king of
the side that moved out of check after `make_move`; every legal move is a pseudo-legal
move. Assumes `undo_move` reverses `make_move` and `make_move` flips the side to move. -/
theorem legal_moves_eq_filter {Board : Type} (ops : BoardOps Board) (mg : Magics) (board : Board)
    (h_undo : ∀ b m, ops.undo_move (ops.make_move b m) = b)
    (h_turn : ∀ b m, (ops.get_state (ops.make_move b m)).turn =
      flip_color (ops.get_state b).turn) :
    (legal_moves ops mg board).1 =
        (moves mg (ops.get_state board)).filter (fun m =>
          !king_in_check mg (ops.get_state board).turn (ops.get_state (ops.make_move board m))) ∧
      List.Sublist (legal_moves ops mg board).1 (moves mg (ops.get_state board)) ∧
      ∀ m ∈ (legal_moves ops mg board).1, m ∈ moves mg (ops.get_state board) ∧
        king_in_check mg (ops.get_state board).turn
          (ops.get_state (ops.make_move board m)) = false := by
  have hflip : ∀ c : Color, flip_color (flip_color c) = c := by
    intro c; cases c <;> rfl
  have key : (legal_moves ops mg board).1 =
      (moves mg (ops.get_state board)).filter (fun m =>
        !king_in_check mg (ops.get_state board).turn
          (ops.get_state (ops.make_move board m))) := by
    unfold legal_moves
    dsimp only
    rw [legal_moves_fold ops mg board (fun m =>
      !king_in_check mg (ops.get_state board).turn (ops.get_state (ops.make_move board m)))]
    · simp
    · intro m
      simp only [is_legal_move, h_undo, h_turn, hflip]
  refine ⟨key, ?_, ?_⟩
  · rw [key]
    exact List.filter_sublist _
  · intro m hm
    rw [key, List.mem_filter] at hm
    exact ⟨hm.1, by simpa using hm.2⟩

/-- Witness for C5 on the starting position with the simple board. -/
theorem legal_moves_eq_filter_witness :
    (∀ b m, simpleOps.undo_move (simpleOps.make_move b m) = b) ∧
    (∀ b m, (simpleOps.get_state (simpleOps.make_move b m)).turn =
      flip_color (simpleOps.get_state b).turn) ∧
    (legal_moves simpleOps plainMagics ⟨startState, []⟩).1 =
      (moves plainMagics startState).filter (fun m =>
        !king_in_check plainMagics Color.kWhite (SimpleBoard.apply startState m)) :=
  ⟨fun _ _ => rfl, fun _ _ => rfl,
    (legal_moves_eq_filter simpleOps plainMagics ⟨startState, []⟩
      (fun _ _ => rfl) (fun _ _ => rfl)).1⟩

/-! ## Membership in the generated lists -/

theorem mem_pawnPushes {turn : Color} {from_ to_ : Nat} {m : Move}
    (h : m ∈ pawnPushes turn from_ to_) : m.from_ = from_ ∧ m.to_ = to_ := by
  unfold pawnPushes promotionMoves at h
  split_ifs at h
  · simp only [List.mem_cons, List.mem_singleton, List.not_mem_nil, or_false] at h
    rcases h with rfl | rfl | rfl | rfl <;> exact ⟨rfl, rfl⟩
  · simp only [List.mem_singleton] at h
    subst h
    exact ⟨rfl, rfl⟩

theorem mem_pawnSection {turn : Color} {pawns : BitBoard} {targets : Nat → BitBoard} {m : Move} :
    m ∈ pawnSection turn pawns targets ↔
      ∃ from_, pawns.is_set from_ = true ∧ ∃ to_, (targets from_).is_set to_ = true ∧
        m ∈ pawnPushes turn from_ to_ := by
  simp only [pawnSection, List.mem_flatMap, BitBoard.mem_squares]

theorem mem_pieceSection {pieces : BitBoard} {targets : Nat → BitBoard} {m : Move} :
    m ∈ pieceSection pieces targets ↔
      ∃ from_, pieces.is_set from_ = true ∧ ∃ to_, (targets from_).is_set to_ = true ∧
        Move.mk2 from_ to_ = m := by
  simp only [pieceSection, List.mem_flatMap, List.mem_map, BitBoard.mem_squares]

theorem mem_pieceSections {mg : Magics} {state : BoardState} {restrict : BitBoard} {m : Move}
    (h : m ∈ pieceSections mg state restrict) :
    restrict.is_set m.to_ = true ∧ m.promotion = PromotionType.kNone ∧
      ((state.knights state.turn).is_set m.from_ = true ∨
        (state.bishops state.turn).is_set m.from_ = true ∨
        (state.rooks state.turn).is_set m.from_ = true ∨
        (state.queens state.turn).is_set m.from_ = true ∨
        (state.king state.turn).is_set m.from_ = true) := by
  simp only [pieceSections, List.mem_append, mem_pieceSection, BitBoard.is_set_and,
    Bool.and_eq_true] at h
  rcases h with (((⟨f, hf, t, ht, rfl⟩ | ⟨f, hf, t, ht, rfl⟩) | ⟨f, hf, t, ht, rfl⟩) |
    ⟨f, hf, t, ht, rfl⟩) | ⟨f, hf, t, ht, rfl⟩
  · exact ⟨ht.2, rfl, Or.inl hf⟩
  · exact ⟨ht.2, rfl, Or.inr (Or.inl hf)⟩
  · exact ⟨ht.2, rfl, Or.inr (Or.inr (Or.inl hf))⟩
  · exact ⟨ht.2, rfl, Or.inr (Or.inr (Or.inr (Or.inl hf)))⟩
  · exact ⟨ht.2, rfl, Or.inr (Or.inr (Or.inr (Or.inr hf)))⟩

theorem occupied_by_le_occupied (state : BoardState) (color : Color) (i : Nat)
    (h : (state.occupied_by color).is_set i = true) : state.occupied.is_set i = true := by
  cases color
  · simp [BoardState.occupied, BitBoard.is_set_or, h]
  · simp [BoardState.occupied, BitBoard.is_set_or, h]
  · simp [BoardState.occupied_by, BoardState.pawns, BoardState.knights, BoardState.bishops,
      BoardState.rooks, BoardState.queens, BoardState.king, BitBoard.is_set_or,
      BitBoard.is_set_zero] at h

theorem is_set_movesPawnTargets {state : BoardState} {from_ to_ : Nat}
    (h : (movesPawnTargets state from_).is_set to_ = true) :
    (state.occupied_by state.turn).is_set to_ = false ∨
      (state.en_passant ≠ Square.kNoSquare ∧ to_ = state.en_passant) := by
  unfold movesPawnTargets at h
  dsimp only at h
  split_ifs at h with h1 h2 h2
  · simp only [BitBoard.is_set_set_bit, BitBoard.is_set_and, BitBoard.is_set_not,
      Bool.or_eq_true, Bool.and_eq_true, decide_eq_true_eq, Bool.not_eq_true'] at h
    rcases h with h | h
    · exact Or.inl h.2.2
    · exact Or.inr ⟨h1, h.2.symm⟩
  · simp only [BitBoard.is_set_and, BitBoard.is_set_not,
      Bool.and_eq_true, decide_eq_true_eq, Bool.not_eq_true'] at h
    exact Or.inl h.2.2
  · simp only [BitBoard.is_set_set_bit, BitBoard.is_set_and, BitBoard.is_set_not,
      Bool.or_eq_true, Bool.and_eq_true, decide_eq_true_eq, Bool.not_eq_true'] at h
    rcases h with h | h
    · exact Or.inl h.2.2
    · simp [h1] at h2
  · simp only [BitBoard.is_set_and, BitBoard.is_set_not,
      Bool.and_eq_true, decide_eq_true_eq, Bool.not_eq_true'] at h
    exact Or.inl h.2.2

theorem is_set_capturePawnTargets {state : BoardState} {from_ to_ : Nat}
    (h : (capturePawnTargets state from_).is_set to_ = true) :
    (state.occupied_by (flip_color state.turn)).is_set to_ = true ∨
      (state.en_passant ≠ Square.kNoSquare ∧ to_ = state.en_passant) := by
  unfold capturePawnTargets at h
  dsimp only at h
  split_ifs at h with h1 h2 h2
  · simp only [BitBoard.is_set_set_bit, BitBoard.is_set_and, BitBoard.is_set_not,
      Bool.or_eq_true, Bool.and_eq_true, decide_eq_true_eq, Bool.not_eq_true'] at h
    rcases h with h | h
    · exact Or.inl h.2.2
    · exact Or.inr ⟨h1, h.2.symm⟩
  · simp only [BitBoard.is_set_and, BitBoard.is_set_not,
      Bool.and_eq_true, decide_eq_true_eq, Bool.not_eq_true'] at h
    exact Or.inl h.2.2
  · simp only [BitBoard.is_set_set_bit, BitBoard.is_set_and, BitBoard.is_set_not,
      Bool.or_eq_true, Bool.and_eq_true, decide_eq_true_eq, Bool.not_eq_true'] at h
    rcases h with h | h
    · exact Or.inl h.2.2
    · simp [h1] at h2
  · simp only [BitBoard.is_set_and, BitBoard.is_set_not,
      Bool.and_eq_true, decide_eq_true_eq, Bool.not_eq_true'] at h
    exact Or.inl h.2.2

/-! ## Theorems about `moves` and `capture_moves` -/

/-- C6: when the en-passant target square, if any, is empty, no move of `moves` has a
destination occupied by a piece of the side to move. -/
theorem moves_avoid_own_pieces (mg : Magics) (state : BoardState)
    (h_ep : state.occupied.is_set state.en_passant = false) :
    ∀ m ∈ moves mg state, (state.occupied_by state.turn).is_set m.to_ = false := by
  intro m hm
  rw [moves_eq, List.mem_append] at hm
  rcases hm with hm | hm
  · obtain ⟨f, _, t, ht, hmem⟩ := mem_pawnSection.1 hm
    rw [(mem_pawnPushes hmem).2]
    rcases is_set_movesPawnTargets ht with h | ⟨_, h⟩
    · exact h
    · subst h
      cases hown : (state.occupied_by state.turn).is_set state.en_passant
      · rfl
      · rw [occupied_by_le_occupied state _ _ hown] at h_ep
        exact Bool.noConfusion h_ep
  · have h := (mem_pieceSections hm).1
    rw [BitBoard.is_set_not, Bool.and_eq_true, Bool.not_eq_true'] at h
    exact h.2

/-- Witness for C6 on a position with an en-passant capture available. -/
theorem moves_avoid_own_pieces_witness :
    enPassantState.occupied.is_set enPassantState.en_passant = false ∧
      ∀ m ∈ moves plainMagics enPassantState,
        (enPassantState.occupied_by enPassantState.turn).is_set m.to_ = false :=
  ⟨by decide, moves_avoid_own_pieces plainMagics enPassantState (by decide)⟩

/-- C8: every move of `capture_moves` has a destination occupied by a piece of the
opponent of the side to move, or its destination is the en-passant target square. -/
theorem capture_moves_targets (mg : Magics) (state : BoardState) :
    ∀ m ∈ capture_moves mg state,
      (state.occupied_by (flip_color state.turn)).is_set m.to_ = true ∨
        (state.en_passant ≠ Square.kNoSquare ∧ m.to_ = state.en_passant) := by
  intro m hm
  rw [capture_moves_eq, List.mem_append] at hm
  rcases hm with hm | hm
  · obtain ⟨f, _, t, ht, hmem⟩ := mem_pawnSection.1 hm
    rw [(mem_pawnPushes hmem).2]
    exact is_set_capturePawnTargets ht
  · have h := (mem_pieceSections hm).1
    rw [BitBoard.is_set_and, Bool.and_eq_true] at h
    exact Or.inl h.2

/-- Witness for C8: the en-passant capture e5xd6 and its destination. -/
theorem capture_moves_targets_witness :
    Move.mk2 36 43 ∈ capture_moves plainMagics enPassantState ∧
      ((enPassantState.occupied_by (flip_color enPassantState.turn)).is_set 43 = true ∨
        (enPassantState.en_passant ≠ Square.kNoSquare ∧ 43 = enPassantState.en_passant)) :=
  ⟨by decide, capture_moves_targets plainMagics enPassantState (Move.mk2 36 43) (by decide)⟩

theorem squares_sublist {a b : BitBoard} (h : ∀ i, a.is_set i = true → b.is_set i = true) :
    List.Sublist a.squares b.squares :=
  List.monotone_filter_right _ h

theorem flatMap_sublist {α β : Type} {l₁ l₂ : List α} (hl : List.Sublist l₁ l₂)
    {f g : α → List β} (hfg : ∀ x, List.Sublist (f x) (g x)) :
    List.Sublist (l₁.flatMap f) (l₂.flatMap g) := by
  induction hl with
  | slnil => simp
  | cons a _ ih =>
    rw [List.flatMap_cons]
    exact ih.trans (List.sublist_append_right _ _)
  | cons₂ a _ ih =>
    rw [List.flatMap_cons, List.flatMap_cons]
    exact (hfg a).append ih

theorem pieceSection_sublist (pieces : BitBoard) {s t : Nat → BitBoard}
    (h : ∀ from_ i, (s from_).is_set i = true → (t from_).is_set i = true) :
    List.Sublist (pieceSection pieces s) (pieceSection pieces t) :=
  flatMap_sublist (List.Sublist.refl _) fun from_ => (squares_sublist (h from_)).map _

theorem pawnSection_sublist (turn : Color) (pawns : BitBoard) {s t : Nat → BitBoard}
    (h : ∀ from_ i, (s from_).is_set i = true → (t from_).is_set i = true) :
    List.Sublist (pawnSection turn pawns s) (pawnSection turn pawns t) :=
  flatMap_sublist (List.Sublist.refl _) fun from_ =>
    flatMap_sublist (squares_sublist (h from_)) fun _ => List.Sublist.refl _

theorem capturePawnTargets_le (state : BoardState) (from_ i : Nat)
    (h : (capturePawnTargets state from_).is_set i = true) :
    (movesPawnTargets state from_).is_set i = true := by
  unfold capturePawnTargets at h
  unfold movesPawnTargets
  dsimp only at h ⊢
  by_cases hep : state.en_passant = Square.kNoSquare
  · simp only [hep, ne_eq, not_true_eq_false, if_false, bne_self_eq_false, Bool.false_and,
      Bool.false_eq_true, BitBoard.is_set_and, BitBoard.is_set_or, BitBoard.is_set_not,
      Bool.and_eq_true, Bool.or_eq_true] at h ⊢
    exact ⟨Or.inr ⟨h.1.1, h.1.2⟩, h.2.1⟩
  · have hne : (state.en_passant != Square.kNoSquare) = true := by simpa using hep
    simp only [hep, ne_eq, not_false_eq_true, if_true, hne, Bool.true_and] at h ⊢
    split_ifs at h with h1
    · have h2 : ((pawn_moves from_ state |||
          (pawn_attacks from_ state Color.kNoColor false &&&
            (state.occupied_by (flip_color state.turn) |||
              BitBoard.from_square state.en_passant))).is_set state.en_passant) = true := by
        rw [BitBoard.is_set_or, h1, Bool.or_true]
      rw [if_pos h2]
      simp only [BitBoard.is_set_set_bit, BitBoard.is_set_and, BitBoard.is_set_or,
        BitBoard.is_set_not, Bool.and_eq_true, Bool.or_eq_true] at h ⊢
      rcases h with h | h
      · exact Or.inl ⟨Or.inr ⟨h.1.1, h.1.2⟩, h.2.1⟩
      · exact Or.inr h
    · have h3 : (movesPawnTargets state from_).is_set i = true := by
        unfold movesPawnTargets
        dsimp only
        simp only [hep, ne_eq, not_false_eq_true, if_true, hne, Bool.true_and]
        simp only [BitBoard.is_set_and, BitBoard.is_set_or,
          BitBoard.is_set_not, Bool.and_eq_true, Bool.or_eq_true] at h
        split_ifs
        · simp only [BitBoard.is_set_set_bit, BitBoard.is_set_and, BitBoard.is_set_or,
            BitBoard.is_set_not, Bool.and_eq_true, Bool.or_eq_true]
          exact Or.inl ⟨Or.inr ⟨h.1.1, h.1.2⟩, h.2.1⟩
        · simp only [BitBoard.is_set_and, BitBoard.is_set_or,
            BitBoard.is_set_not, Bool.and_eq_true, Bool.or_eq_true]
          exact ⟨Or.inr ⟨h.1.1, h.1.2⟩, h.2.1⟩
      unfold movesPawnTargets at h3
      dsimp only at h3
      simpa only [hep, ne_eq, not_false_eq_true, if_true, hne, Bool.true_and] using h3

/-- C9: `capture_moves` is an order-preserving sublist of `moves` for the same state;
in particular each of its moves is a member of `moves`. -/
theorem capture_moves_sublist (mg : Magics) (state : BoardState) :
    List.Sublist (capture_moves mg state) (moves mg state) ∧
      ∀ m ∈ capture_moves mg state, m ∈ moves mg state := by
  have key : List.Sublist (capture_moves mg state) (moves mg state) := by
    rw [capture_moves_eq, moves_eq]
    apply List.Sublist.append
    · exact pawnSection_sublist _ _ (capturePawnTargets_le state)
    · have hr : ∀ (x : BitBoard) (i : Nat),
          (x &&& (~~~(state.occupied_by state.turn) &&&
            state.occupied_by (flip_color state.turn))).is_set i = true →
          (x &&& ~~~(state.occupied_by state.turn)).is_set i = true := by
        intro x i h
        simp only [BitBoard.is_set_and, Bool.and_eq_true] at h ⊢
        exact ⟨h.1, h.2.1⟩
      unfold pieceSections
      refine List.Sublist.append (List.Sublist.append (List.Sublist.append
        (List.Sublist.append ?_ ?_) ?_) ?_) ?_ <;>
        exact pieceSection_sublist _ fun from_ i h => hr _ i h
  exact ⟨key, fun m hm => key.subset hm⟩

/-! ## Promotion expansion -/

theorem disjoint_is_set {a b : BitBoard} (h : a &&& b = 0) (i : Nat) (ha : a.is_set i = true) :
    b.is_set i = false := by
  have h1 : (a &&& b).is_set i = false := by rw [h]; exact BitBoard.is_set_zero i
  rw [BitBoard.is_set_and, ha, Bool.true_and] at h1
  exact h1

theorem disjoint_is_set_right {a b : BitBoard} (h : a &&& b = 0) (i : Nat)
    (hb : b.is_set i = true) : a.is_set i = false := by
  have h1 : (a &&& b).is_set i = false := by rw [h]; exact BitBoard.is_set_zero i
  rw [BitBoard.is_set_and, hb, Bool.and_true] at h1
  exact h1

/-- A square holding a pawn of a color holds no other piece of that color. -/
theorem pawn_square_no_other_piece {state : BoardState} (h : state.one_piece_per_square)
    (c : Color) (i : Nat) (hp : (state.pawns c).is_set i = true) :
    (state.knights c).is_set i = false ∧ (state.bishops c).is_set i = false ∧
      (state.rooks c).is_set i = false ∧ (state.queens c).is_set i = false ∧
      (state.king c).is_set i = false := by
  simp only [BoardState.one_piece_per_square, BoardState.boards, List.pairwise_cons,
    List.mem_cons, List.mem_singleton, forall_eq_or_imp, forall_eq, List.not_mem_nil,
    List.Pairwise.nil, and_true, IsEmpty.forall_iff, implies_true] at h
  obtain ⟨⟨a1, a2, a3, a4, a5, _⟩, _, _, _, _, _, ⟨g1, g2, g3, g4, g5⟩, _⟩ := h
  cases c
  · exact ⟨disjoint_is_set a1 i hp, disjoint_is_set a2 i hp, disjoint_is_set a3 i hp,
      disjoint_is_set a4 i hp, disjoint_is_set a5 i hp⟩
  · exact ⟨disjoint_is_set g1 i hp, disjoint_is_set g2 i hp, disjoint_is_set g3 i hp,
      disjoint_is_set g4 i hp, disjoint_is_set g5 i hp⟩
  · exact ⟨BitBoard.is_set_zero i, BitBoard.is_set_zero i, BitBoard.is_set_zero i,
      BitBoard.is_set_zero i, BitBoard.is_set_zero i⟩

theorem pawnPushes_last_rank {turn : Color} {from_ to_ : Nat} (h : onLastRank turn to_) :
    pawnPushes turn from_ to_ = promotionMoves from_ to_ := by
  rw [pawnPushes, if_pos h]

theorem pawnPushes_other_rank {turn : Color} {from_ to_ : Nat} (h : ¬ onLastRank turn to_) :
    pawnPushes turn from_ to_ = [Move.mk2 from_ to_] := by
  rw [pawnPushes, if_neg h]

theorem split_nodup {l : List Nat} (hl : l.Nodup) {x : Nat} (hx : x ∈ l) :
    ∃ s t, l = s ++ x :: t ∧ x ∉ s ∧ x ∉ t := by
  obtain ⟨s, t, rfl⟩ := List.append_of_mem hx
  refine ⟨s, t, rfl, ?_, ?_⟩
  · intro hs
    have := (List.nodup_append.1 hl).2.2
    exact this hs (List.mem_cons_self x t)
  · have := (List.nodup_append.1 hl).2.1
    exact (List.nodup_cons.1 this).1

/-- Promotion expansion of the pawn loop's list followed by any list of plain moves
that do not start on a pawn square. -/
theorem expansion_of_sections (state : BoardState) (targets : Nat → BitBoard)
    (others : List Move)
    (h : ∀ m ∈ others, m.promotion = PromotionType.kNone ∧
      (state.pawns state.turn).is_set m.from_ = false) :
    PromotionExpansion state targets
      (pawnSection state.turn (state.pawns state.turn) targets ++ others) := by
  refine ⟨?_, ?_, ?_⟩
  · intro from_ to_ hf ht hl
    obtain ⟨A, B, hAB, hA, hB⟩ :=
      split_nodup (state.pawns state.turn).squares_nodup (((state.pawns state.turn).mem_squares _).2 hf)
    obtain ⟨C, D, hCD, hC, hD⟩ :=
      split_nodup (targets from_).squares_nodup (((targets from_).mem_squares _).2 ht)
    refine ⟨A.flatMap (fun x => (targets x).squares.flatMap (pawnPushes state.turn x)) ++
        C.flatMap (pawnPushes state.turn from_),
      D.flatMap (pawnPushes state.turn from_) ++
        (B.flatMap (fun x => (targets x).squares.flatMap (pawnPushes state.turn x)) ++ others),
      ?_, ?_⟩
    · rw [pawnSection, hAB, List.flatMap_append, List.flatMap_cons, hCD, List.flatMap_append,
        List.flatMap_cons, pawnPushes_last_rank hl]
      simp only [List.append_assoc]
    · intro m' hm' ⟨hf', ht'⟩
      simp only [List.mem_append, List.mem_flatMap] at hm'
      rcases hm' with (⟨x, hx, y, _, hmem'⟩ | ⟨y, hy, hmem'⟩) |
        (⟨y, hy, hmem'⟩ | (⟨x, hx, y, _, hmem'⟩ | hmem'))
      · have := (mem_pawnPushes hmem').1
        rw [hf'] at this
        exact hA (this ▸ hx)
      · have := (mem_pawnPushes hmem').2
        rw [ht'] at this
        exact hC (this ▸ hy)
      · have := (mem_pawnPushes hmem').2
        rw [ht'] at this
        exact hD (this ▸ hy)
      · have := (mem_pawnPushes hmem').1
        rw [hf'] at this
        exact hB (this ▸ hx)
      · have := (h m' hmem').2
        rw [hf', hf] at this
        exact Bool.noConfusion this
  · intro m hm hp
    rw [List.mem_append] at hm
    rcases hm with hm | hm
    · obtain ⟨f, _, t, ht, hmem⟩ := mem_pawnSection.1 hm
      obtain ⟨e1, e2⟩ := mem_pawnPushes hmem
      rw [e1, e2]
      exact ht
    · have := (h m hm).2
      rw [hp] at this
      exact Bool.noConfusion this
  · intro m hm hnot
    rw [List.mem_append] at hm
    rcases hm with hm | hm
    · obtain ⟨f, hf, t, ht, hmem⟩ := mem_pawnSection.1 hm
      obtain ⟨e1, e2⟩ := mem_pawnPushes hmem
      have hnl : ¬ onLastRank state.turn t := by
        intro hl
        exact hnot ⟨e1 ▸ hf, e2 ▸ hl⟩
      rw [pawnPushes_other_rank hnl, List.mem_singleton] at hmem
      rw [hmem]
      rfl
    · exact (h m hm).1

theorem pieceSections_plain {mg : Magics} {state : BoardState}
    (h : state.one_piece_per_square) (restrict : BitBoard) :
    ∀ m ∈ pieceSections mg state restrict, m.promotion = PromotionType.kNone ∧
      (state.pawns state.turn).is_set m.from_ = false := by
  intro m hm
  obtain ⟨_, hnone, hpiece⟩ := mem_pieceSections hm
  refine ⟨hnone, ?_⟩
  cases hp : (state.pawns state.turn).is_set m.from_
  · rfl
  · obtain ⟨h1, h2, h3, h4, h5⟩ := pawn_square_no_other_piece h state.turn m.from_ hp
    rw [h1, h2, h3, h4, h5] at hpiece
    simp at hpiece

/-- C7 as stated fails for a state with two pieces on one square: with a white pawn and
a white queen both on a7 and a black knight on b8, the pair a7-b8 has a pawn source and
a generated last-rank destination, yet `moves` and `capture_moves` each hold five moves
for it, the fifth being the plain move pushed by the queen loop. -/
theorem plain_move_on_promotion_pair :
    (pawnQueenState.pawns pawnQueenState.turn).is_set 48 = true ∧
      onLastRank pawnQueenState.turn 57 ∧
      (movesPawnTargets pawnQueenState 48).is_set 57 = true ∧
      (capturePawnTargets pawnQueenState 48).is_set 57 = true ∧
      Move.mk2 48 57 ∈ moves plainMagics pawnQueenState ∧
      Move.mk2 48 57 ∈ capture_moves plainMagics pawnQueenState ∧
      ((moves plainMagics pawnQueenState).filter fun m => m.from_ = 48 ∧ m.to_ = 57) =
        promotionMoves 48 57 ++ [Move.mk2 48 57] ∧
      ((capture_moves plainMagics pawnQueenState).filter fun m => m.from_ = 48 ∧ m.to_ = 57) =
        promotionMoves 48 57 ++ [Move.mk2 48 57] := by
  decide!

/-- C7 amended: in a state with at most one piece per square, in `moves` and in
`capture_moves`, for every pawn square and every member of its destination set on the
last rank the list holds exactly the four moves of that pair, consecutive and in the
order Queen, Rook, Knight, Bishop, none with promotion `kNone`; the moves from a pawn
square are those to its destination set, and every other move has promotion `kNone`. -/
theorem promotion_expansion (mg : Magics) (state : BoardState)
    (h : state.one_piece_per_square) :
    PromotionExpansion state (movesPawnTargets state) (moves mg state) ∧
      PromotionExpansion state (capturePawnTargets state) (capture_moves mg state) := by
  constructor
  · rw [moves_eq]
    exact expansion_of_sections state _ _ (pieceSections_plain h _)
  · rw [capture_moves_eq]
    exact expansion_of_sections state _ _ (pieceSections_plain h _)

/-- Witness for C7 on a position where the pawn on a7 promotes by the push to a8 in
`moves` and by the capture on b8 in `capture_moves`: both destinations are generated
and each list splits around the four promotion moves of the pair. -/
theorem promotion_expansion_witness :
    promotionState.one_piece_per_square ∧
      (movesPawnTargets promotionState 48).is_set 56 = true ∧
      (∃ pre post, moves plainMagics promotionState = pre ++ promotionMoves 48 56 ++ post ∧
        ∀ m ∈ pre ++ post, ¬ (m.from_ = 48 ∧ m.to_ = 56)) ∧
      (capturePawnTargets promotionState 48).is_set 57 = true ∧
      (∃ pre post, capture_moves plainMagics promotionState =
          pre ++ promotionMoves 48 57 ++ post ∧
        ∀ m ∈ pre ++ post, ¬ (m.from_ = 48 ∧ m.to_ = 57)) :=
  ⟨by decide, by decide,
    (promotion_expansion plainMagics promotionState (by decide)).1.1 48 56 (by decide)
      (by decide) (by decide),
    by decide,
    (promotion_expansion plainMagics promotionState (by decide)).2.1 48 57 (by decide)
      (by decide) (by decide)⟩

/-! ## Castling destinations -/

theorem get_piece_color_of_king {state : BoardState} (h : state.one_piece_per_square)
    (c : Color) (pos : Nat) (hk : (state.king c).is_set pos = true) :
    state.get_piece_color pos = c := by
  simp only [BoardState.one_piece_per_square, BoardState.boards, List.pairwise_cons,
    List.mem_cons, List.mem_singleton, forall_eq_or_imp, forall_eq, List.not_mem_nil,
    List.Pairwise.nil, and_true, IsEmpty.forall_iff, implies_true] at h
  obtain ⟨⟨_, _, _, _, _, _, _, _, _, _, a11⟩, ⟨_, _, _, _, _, _, _, _, _, b10⟩,
    ⟨_, _, _, _, _, _, _, _, c9⟩, ⟨_, _, _, _, _, _, _, d8⟩, ⟨_, _, _, _, _, _, e7⟩,
    ⟨_, _, _, _, _, f6⟩, _⟩ := h
  cases c
  · simp only [BoardState.king] at hk
    simp [BoardState.get_piece_color, BoardState.occupied_by, BoardState.pawns,
      BoardState.knights, BoardState.bishops, BoardState.rooks, BoardState.queens,
      BoardState.king, BitBoard.is_set_or, hk]
  · simp only [BoardState.king] at hk
    simp [BoardState.get_piece_color, BoardState.occupied_by, BoardState.pawns,
      BoardState.knights, BoardState.bishops, BoardState.rooks, BoardState.queens,
      BoardState.king, BitBoard.is_set_or, hk, disjoint_is_set_right a11 pos hk,
      disjoint_is_set_right b10 pos hk, disjoint_is_set_right c9 pos hk,
      disjoint_is_set_right d8 pos hk, disjoint_is_set_right e7 pos hk,
      disjoint_is_set_right f6 pos hk]
  · simp [BoardState.king, BitBoard.is_set_zero] at hk

theorem king_attacks_home :
    (king_attacks 4).is_set 6 = false ∧ (king_attacks 4).is_set 2 = false ∧
      (king_attacks 60).is_set 62 = false ∧ (king_attacks 60).is_set 58 = false := by
  decide

/-- C10: for a king on its home square, the kingside destination is in `king_moves`
exactly when the kingside right is held, the king is not in check, and the f and g
squares are unoccupied and not attacked; the queenside destination exactly when the
queenside right is held, the king is not in check, the d and c squares are unoccupied
and not attacked, and the b square is unoccupied. -/
theorem castling_destinations (mg : Magics) (state : BoardState) (c : Color)
    (hc : c = Color.kWhite ∨ c = Color.kBlack)
    (hk : (state.king c).is_set (backRank c 4) = true)
    (h : state.one_piece_per_square) :
    ((king_moves mg (backRank c 4) state).is_set (backRank c 6) = true ↔
      state.castle_rights.can_kingside_castle c = true ∧ king_in_check mg c state = false ∧
      state.occupied.is_set (backRank c 5) = false ∧
      state.occupied.is_set (backRank c 6) = false ∧
      is_square_attacked mg (backRank c 5) (flip_color c) state = false ∧
      is_square_attacked mg (backRank c 6) (flip_color c) state = false) ∧
    ((king_moves mg (backRank c 4) state).is_set (backRank c 2) = true ↔
      state.castle_rights.can_queenside_castle c = true ∧ king_in_check mg c state = false ∧
      state.occupied.is_set (backRank c 3) = false ∧
      state.occupied.is_set (backRank c 2) = false ∧
      state.occupied.is_set (backRank c 1) = false ∧
      is_square_attacked mg (backRank c 3) (flip_color c) state = false ∧
      is_square_attacked mg (backRank c 2) (flip_color c) state = false) := by
  have hcol := get_piece_color_of_king h c _ hk
  obtain ⟨k1, k2, k3, k4⟩ := king_attacks_home
  rcases hc with rfl | rfl
  · simp only [backRank] at hcol ⊢
    simp only [king_moves, hcol, castling_moves, if_true, flip_color, Square.kF1, Square.kG1,
      Square.kD1, Square.kC1, Square.kB1]
    constructor
    · cases state.castle_rights.can_kingside_castle Color.kWhite <;>
      cases state.castle_rights.can_queenside_castle Color.kWhite <;>
      cases king_in_check mg Color.kWhite state <;>
      cases is_square_attacked mg 5 Color.kBlack state <;>
      cases is_square_attacked mg 6 Color.kBlack state <;>
      cases state.occupied.is_set 5 <;>
      cases state.occupied.is_set 6 <;>
      simp [BitBoard.is_set_or, BitBoard.is_set_set_bit, BitBoard.is_set_zero, k1] <;>
      split_ifs <;>
      simp [BitBoard.is_set_or, BitBoard.is_set_set_bit, BitBoard.is_set_zero, k1]
    · cases state.castle_rights.can_kingside_castle Color.kWhite <;>
      cases state.castle_rights.can_queenside_castle Color.kWhite <;>
      cases king_in_check mg Color.kWhite state <;>
      cases is_square_attacked mg 3 Color.kBlack state <;>
      cases is_square_attacked mg 2 Color.kBlack state <;>
      cases state.occupied.is_set 3 <;>
      cases state.occupied.is_set 2 <;>
      cases state.occupied.is_set 1 <;>
      simp [BitBoard.is_set_or, BitBoard.is_set_set_bit, BitBoard.is_set_zero, k2] <;>
      split_ifs <;>
      simp [BitBoard.is_set_or, BitBoard.is_set_set_bit, BitBoard.is_set_zero, k2]
  · simp only [backRank] at hcol ⊢
    simp only [king_moves, hcol, castling_moves, if_false, flip_color, Square.kF8, Square.kG8,
      Square.kD8, Square.kC8, Square.kB8, reduceCtorEq]
    constructor
    · cases state.castle_rights.can_kingside_castle Color.kBlack <;>
      cases state.castle_rights.can_queenside_castle Color.kBlack <;>
      cases king_in_check mg Color.kBlack state <;>
      cases is_square_attacked mg 61 Color.kWhite state <;>
      cases is_square_attacked mg 62 Color.kWhite state <;>
      cases state.occupied.is_set 61 <;>
      cases state.occupied.is_set 62 <;>
      simp [BitBoard.is_set_or, BitBoard.is_set_set_bit, BitBoard.is_set_zero, k3] <;>
      split_ifs <;>
      simp [BitBoard.is_set_or, BitBoard.is_set_set_bit, BitBoard.is_set_zero, k3]
    · cases state.castle_rights.can_kingside_castle Color.kBlack <;>
      cases state.castle_rights.can_queenside_castle Color.kBlack <;>
      cases king_in_check mg Color.kBlack state <;>
      cases is_square_attacked mg 59 Color.kWhite state <;>
      cases is_square_attacked mg 58 Color.kWhite state <;>
      cases state.occupied.is_set 59 <;>
      cases state.occupied.is_set 58 <;>
      cases state.occupied.is_set 57 <;>
      simp [BitBoard.is_set_or, BitBoard.is_set_set_bit, BitBoard.is_set_zero, k4] <;>
      split_ifs <;>
      simp [BitBoard.is_set_or, BitBoard.is_set_set_bit, BitBoard.is_set_zero, k4]

/-- Witness for C10 on a position where White may castle on either side. -/
theorem castling_destinations_witness :
    (promotionState.king Color.kWhite).is_set 4 = true ∧
      promotionState.one_piece_per_square ∧
      (king_moves plainMagics 4 promotionState).is_set 6 = true ∧
      ((king_moves plainMagics 4 promotionState).is_set 6 = true ↔
        promotionState.castle_rights.can_kingside_castle Color.kWhite = true ∧
        king_in_check plainMagics Color.kWhite promotionState = false ∧
        promotionState.occupied.is_set 5 = false ∧
        promotionState.occupied.is_set 6 = false ∧
        is_square_attacked plainMagics 5 Color.kBlack promotionState = false ∧
        is_square_attacked plainMagics 6 Color.kBlack promotionState = false) :=
  ⟨by decide, by decide, by decide,
    (castling_destinations plainMagics promotionState Color.kWhite (Or.inl rfl)
      (by decide) (by decide)).1⟩

/-! ## The written form of a move -/

theorem to_string_eq (m : Move) (hf : m.from_ < 64) (ht : m.to_ < 64)
    (hn : m ≠ Move.null_move) :
    Move.to_string m =
      [fileLetter m.from_, rankDigit m.from_, fileLetter m.to_, rankDigit m.to_] ++
        promotionSuffix m.promotion := by
  obtain ⟨f, t, p⟩ := m
  simp only at hf ht
  have h1 : f / 8 < 8 := by omega
  have h3 : t / 8 < 8 := by omega
  unfold Move.to_string
  rw [if_neg hn]
  simp only [Move.get_from, Move.get_to, Move.get_promotion_type, kBoardRanks, kBoardFiles,
    std_to_string_digit _ h1, std_to_string_digit _ h3, fileLetter, rankDigit]
  cases p <;> rfl

theorem fileLetter_isFileLetter : ∀ sq, sq < 64 → isFileLetter (fileLetter sq) := by decide

theorem rankDigit_isRankDigit : ∀ sq, sq < 64 → isRankDigit (rankDigit sq) := by decide

theorem fileLetter_not_upper : ∀ sq, sq < 64 → (fileLetter sq).isUpper = false := by decide

theorem rankDigit_not_upper : ∀ sq, sq < 64 → (rankDigit sq).isUpper = false := by decide

theorem promotionSuffix_not_upper (p : PromotionType) (c : Char)
    (h : c ∈ promotionSuffix p) : c.isUpper = false := by
  cases p <;> simp only [promotionSuffix, List.mem_singleton, List.not_mem_nil] at h <;>
    subst h <;> rfl

/-- C14: for a move other than the null move with squares below 64, the text is the
file letter and rank digit of the source, then of the destination, then the lowercase
promotion letter (`q`, `r`, `b`, `n`; `q` also for `kAny`; nothing for `kNone`); it has
length 4 or 5 and no uppercase character. -/
theorem to_string_form (m : Move) (hf : m.from_ < 64) (ht : m.to_ < 64)
    (hn : m ≠ Move.null_move) :
    Move.to_string m =
        [fileLetter m.from_, rankDigit m.from_, fileLetter m.to_, rankDigit m.to_] ++
          promotionSuffix m.promotion ∧
      isFileLetter (fileLetter m.from_) ∧ isRankDigit (rankDigit m.from_) ∧
      isFileLetter (fileLetter m.to_) ∧ isRankDigit (rankDigit m.to_) ∧
      (m.promotion = PromotionType.kNone → (Move.to_string m).length = 4) ∧
      (m.promotion ≠ PromotionType.kNone → (Move.to_string m).length = 5) ∧
      ∀ c ∈ Move.to_string m, c.isUpper = false := by
  have key := to_string_eq m hf ht hn
  refine ⟨key, fileLetter_isFileLetter _ hf, rankDigit_isRankDigit _ hf,
    fileLetter_isFileLetter _ ht, rankDigit_isRankDigit _ ht, ?_, ?_, ?_⟩
  · intro h
    rw [key, h]
    rfl
  · intro h
    rw [key]
    cases hp : m.promotion <;> first | rfl | exact absurd hp h
  · intro c hc
    rw [key] at hc
    have a1 := fileLetter_not_upper _ hf
    have a2 := rankDigit_not_upper _ hf
    have a3 := fileLetter_not_upper _ ht
    have a4 := rankDigit_not_upper _ ht
    rw [List.mem_append] at hc
    rcases hc with hc | hc
    · simp only [List.mem_cons, List.mem_singleton, List.not_mem_nil, or_false] at hc
      rcases hc with rfl | rfl | rfl | rfl
      exacts [a1, a2, a3, a4]
    · exact promotionSuffix_not_upper _ c hc

/-- Witness for C14 at the move e7e8 promoting to a queen. -/
theorem to_string_form_witness :
    Move.to_string (Move.mk3 52 60 PromotionType.kQueen) = "e7e8q".toList :=
  (to_string_form (Move.mk3 52 60 PromotionType.kQueen) (by decide) (by decide) (by decide)).1

theorem chars_of_square (f r : Char) (hf : isFileLetter f) (hr : isRankDigit r) :
    (r.toNat - '1'.toNat) * 8 + (f.toNat - 'a'.toNat) < 64 ∧
      fileLetter ((r.toNat - '1'.toNat) * 8 + (f.toNat - 'a'.toNat)) = f ∧
      rankDigit ((r.toNat - '1'.toNat) * 8 + (f.toNat - 'a'.toNat)) = r ∧
      ((r.toNat - '1'.toNat) * 8 + (f.toNat - 'a'.toNat) = 0 ↔ f = 'a' ∧ r = '1') := by
  have ea : 'a'.toNat = 97 := rfl
  have e1 : '1'.toNat = 49 := rfl
  have eh : 'h'.toNat = 104 := rfl
  have e8 : '8'.toNat = 56 := rfl
  simp only [isFileLetter, isRankDigit, ea, e1, eh, e8] at hf hr
  simp only [ea, e1, fileLetter, rankDigit]
  have m1 : ((r.toNat - 49) * 8 + (f.toNat - 97)) % 8 = f.toNat - 97 := by omega
  have m2 : ((r.toNat - 49) * 8 + (f.toNat - 97)) / 8 = r.toNat - 49 := by omega
  have a1 : 97 + (f.toNat - 97) = f.toNat := by omega
  have a2 : 49 + (r.toNat - 49) = r.toNat := by omega
  refine ⟨by omega, ?_, ?_, ?_⟩
  · rw [m1, a1, Char.ofNat_toNat]
  · rw [m2, a2, Char.ofNat_toNat]
  · constructor
    · intro h0
      have hf0 : f.toNat = 97 := by omega
      have hr0 : r.toNat = 49 := by omega
      constructor
      · rw [← Char.ofNat_toNat f, hf0]
      · rw [← Char.ofNat_toNat r, hr0]
    · rintro ⟨rfl, rfl⟩
      rfl

theorem promotionSuffix_of_letter (p : Char) (promo : PromotionType)
    (h : promotionOfLetter p = some promo) :
    promotionSuffix promo = [p.toLower] ∧ promo ≠ PromotionType.kNone := by
  unfold promotionOfLetter at h
  split_ifs at h with h1 h2 h3 h4 <;> injection h with h <;> subst h
  · rcases h1 with rfl | rfl <;> exact ⟨rfl, by decide⟩
  · rcases h2 with rfl | rfl <;> exact ⟨rfl, by decide⟩
  · rcases h3 with rfl | rfl <;> exact ⟨rfl, by decide⟩
  · rcases h4 with rfl | rfl <;> exact ⟨rfl, by decide⟩

/-- C19: for text accepted by `Move::from_str`, writing the parsed move gives the text
back with the characters after the coordinates in lowercase, except for "a1a1", whose
parsed value is the null move and is written "null". -/
theorem to_string_from_str (state : BoardState) (s : List Char) (m : Move)
    (h : Move.from_str state s = some m) :
    (m = Move.null_move ↔ s = "a1a1".toList) ∧
      Move.to_string m =
        if s = "a1a1".toList then "null".toList else lowerPromotionLetter s := by
  rw [from_str_eq_meaning] at h
  match s, h with
  | [], h => simp [textMeaning] at h
  | [_], h => simp [textMeaning] at h
  | [_, _], h => simp [textMeaning] at h
  | [_, _, _], h => simp [textMeaning] at h
  | [f1, r1, f2, r2], h =>
    simp only [textMeaning] at h
    split_ifs at h with hc
    injection h with h
    obtain ⟨b1, l1, d1, z1⟩ := chars_of_square f1 r1 hc.1 hc.2.1
    obtain ⟨b2, l2, d2, z2⟩ := chars_of_square f2 r2 hc.2.2.1 hc.2.2.2
    have hs : ([f1, r1, f2, r2] = "a1a1".toList) ↔ (f1 = 'a' ∧ r1 = '1') ∧ (f2 = 'a' ∧ r2 = '1') := by
      show ([f1, r1, f2, r2] = ['a', '1', 'a', '1']) ↔ _
      simp only [List.cons.injEq, and_true, and_assoc]
    have hnull : m = Move.null_move ↔ [f1, r1, f2, r2] = "a1a1".toList := by
      rw [hs, ← z1, ← z2, ← h]
      simp [Move.null_move, Move.mk2]
    refine ⟨hnull, ?_⟩
    by_cases hn : m = Move.null_move
    · rw [if_pos (hnull.1 hn), hn]
      rfl
    · rw [if_neg (fun e => hn (hnull.2 e))]
      have hm := to_string_eq m (by rw [← h]; exact b1) (by rw [← h]; exact b2) hn
      rw [hm, ← h]
      simp only [l1, d1, l2, d2]
      rfl
  | [f1, r1, f2, r2, p], h =>
    simp only [textMeaning] at h
    split_ifs at h with hc
    cases hp : promotionOfLetter p with
    | none => simp [hp] at h
    | some promo =>
      simp only [hp] at h
      injection h with h
      obtain ⟨b1, l1, d1, _⟩ := chars_of_square f1 r1 hc.1 hc.2.1
      obtain ⟨b2, l2, d2, _⟩ := chars_of_square f2 r2 hc.2.2.1 hc.2.2.2
      obtain ⟨hsuf, hne⟩ := promotionSuffix_of_letter p promo hp
      have hs : ¬ ([f1, r1, f2, r2, p] = "a1a1".toList) := by
        intro e
        have := congrArg List.length e
        simp at this
      have hn : m ≠ Move.null_move := by
        rw [← h]
        intro e
        apply hne
        simpa [Move.null_move, Move.mk2] using (congrArg Move.promotion e)
      refine ⟨⟨fun e => absurd e hn, fun e => absurd e hs⟩, ?_⟩
      rw [if_neg hs]
      have hm := to_string_eq m (by rw [← h]; exact b1) (by rw [← h]; exact b2) hn
      rw [hm, ← h]
      simp only [l1, d1, l2, d2, hsuf]
      rfl
  | _ :: _ :: _ :: _ :: _ :: _ :: _, h => simp [textMeaning] at h

/-- Witness for C19 at the text "e7e8Q". -/
theorem to_string_from_str_witness :
    Move.from_str emptyState "e7e8Q".toList = some (Move.mk3 52 60 PromotionType.kQueen) ∧
      Move.to_string (Move.mk3 52 60 PromotionType.kQueen) = "e7e8q".toList :=
  ⟨by decide, (to_string_from_str emptyState "e7e8Q".toList
    (Move.mk3 52 60 PromotionType.kQueen) (by decide)).2⟩

/-! ## Theorems about `filter_moves` -/

theorem fold_filter {Board : Type} (step : MoveList × Board → Move → MoveList × Board)
    (keep : Move → Bool) (board : Board)
    (hstep : ∀ acc m, step (acc, board) m = (if keep m then acc ++ [m] else acc, board)) :
    ∀ (l : List Move) (acc : MoveList),
      l.foldl step (acc, board) = (acc ++ l.filter keep, board) := by
  intro l
  induction l with
  | nil => intro acc; simp
  | cons a l ih =>
    intro acc
    rw [List.foldl_cons, hstep, ih]
    cases hk : keep a
    · simp [hk]
    · simp [hk]

theorem get_piece_type_ne_none (state : BoardState) (pos : Nat) :
    (state.get_piece_type pos != PieceType.kNone) = state.occupied.is_set pos := by
  unfold BoardState.get_piece_type
  simp only [BoardState.occupied, BoardState.occupied_by, BoardState.pawns, BoardState.knights,
    BoardState.bishops, BoardState.rooks, BoardState.queens, BoardState.king,
    BitBoard.is_set_or]
  generalize state.white_pawns.is_set pos = a1
  generalize state.black_pawns.is_set pos = b1
  generalize state.white_knights.is_set pos = a2
  generalize state.black_knights.is_set pos = b2
  generalize state.white_bishops.is_set pos = a3
  generalize state.black_bishops.is_set pos = b3
  generalize state.white_rooks.is_set pos = a4
  generalize state.black_rooks.is_set pos = b4
  generalize state.white_queens.is_set pos = a5
  generalize state.black_queens.is_set pos = b5
  generalize state.white_king.is_set pos = a6
  generalize state.black_king.is_set pos = b6
  revert a1 b1 a2 b2 a3 b3 a4 b4 a5 b5 a6 b6
  decide

theorem get_piece_type_eq_pawn (state : BoardState) (pos : Nat) :
    (state.get_piece_type pos == PieceType.kPawn) =
      (state.white_pawns ||| state.black_pawns).is_set pos := by
  unfold BoardState.get_piece_type
  cases (state.white_pawns ||| state.black_pawns).is_set pos
  · simp only [Bool.false_eq_true, if_false]
    split_ifs <;> rfl
  · rfl

theorem is_capture_eq (state : BoardState) (m : Move) :
    m.is_capture state = occupancyCapture state m := by
  simp only [Move.is_capture, occupancyCapture, Move.get_from, Move.get_to,
    get_piece_type_ne_none, get_piece_type_eq_pawn]

/-- C11 as stated fails: the capture filter drops the knight move to the en-passant
target and keeps the move onto an own pawn, the reverse of the claimed selection. -/
theorem captures_filter_differs :
    (filter_moves simpleOps plainMagics [Move.mk2 33 43, Move.mk2 33 27] MoveType.kCaptures
        ⟨knightEnPassantState, []⟩).1 = [Move.mk2 33 27] ∧
      [Move.mk2 33 43, Move.mk2 33 27].filter (claimedCapture knightEnPassantState) =
        [Move.mk2 33 43] ∧
      Move.mk2 33 43 ∈ moves plainMagics knightEnPassantState := by
  decide

/-- C11 amended: the capture filter keeps, in order, exactly the moves whose destination
is occupied by a piece of either color, or whose source holds a pawn and whose
destination is the en-passant target. -/
theorem filter_moves_captures {Board : Type} (ops : BoardOps Board) (mg : Magics)
    (moves : MoveList) (board : Board) :
    (filter_moves ops mg moves MoveType.kCaptures board).1 =
        moves.filter (occupancyCapture (ops.get_state board)) ∧
      List.Sublist (filter_moves ops mg moves MoveType.kCaptures board).1 moves := by
  have key : filter_moves ops mg moves MoveType.kCaptures board =
      (moves.filter (occupancyCapture (ops.get_state board)), board) := by
    unfold filter_moves
    rw [if_neg (by decide)]
    rw [fold_filter _ (occupancyCapture (ops.get_state board)) board]
    · simp
    · intro acc m
      simp only [if_true, is_capture_eq, MoveList.push]
      split_ifs <;> rfl
  rw [key]
  exact ⟨rfl, List.filter_sublist _⟩

/-- C12: with `undo_move` reversing `make_move`, the quiet filter keeps, in order,
exactly the moves that are not a capture, have promotion `kNone`, and after which the
king of the side now to move is not in check; that side is the opponent of the mover
when `make_move` flips the turn, so a non-capturing move that gives check is dropped. -/
theorem filter_moves_quiet {Board : Type} (ops : BoardOps Board) (mg : Magics)
    (moves : MoveList) (board : Board)
    (h_undo : ∀ b m, ops.undo_move (ops.make_move b m) = b)
    (h_turn : ∀ b m, (ops.get_state (ops.make_move b m)).turn =
      flip_color (ops.get_state b).turn) :
    (filter_moves ops mg moves MoveType.kQuiet board).1 =
        moves.filter (quietMove ops mg board) ∧
      List.Sublist (filter_moves ops mg moves MoveType.kQuiet board).1 moves ∧
      ∀ m, m.is_capture (ops.get_state board) = false →
        king_in_check mg (flip_color (ops.get_state board).turn)
          (ops.get_state (ops.make_move board m)) = true →
        m ∉ (filter_moves ops mg moves MoveType.kQuiet board).1 := by
  have key : filter_moves ops mg moves MoveType.kQuiet board =
      (moves.filter (quietMove ops mg board), board) := by
    unfold filter_moves
    rw [if_neg (by decide)]
    rw [fold_filter _ (quietMove ops mg board) board]
    · simp
    · intro acc m
      simp only [reduceCtorEq, if_false, if_true, causes_check, h_undo, MoveList.push,
        Move.get_promotion_type, quietMove]
      split_ifs <;> simp_all
  rw [key]
  refine ⟨rfl, List.filter_sublist _, ?_⟩
  intro m hcap hcheck hm
  rw [List.mem_filter, quietMove, h_turn] at hm
  simp [hcheck] at hm

/-- Witness for C12 on the starting position with the simple board. -/
theorem filter_moves_quiet_witness :
    (∀ b m, simpleOps.undo_move (simpleOps.make_move b m) = b) ∧
    (∀ b m, (simpleOps.get_state (simpleOps.make_move b m)).turn =
      flip_color (simpleOps.get_state b).turn) ∧
    (filter_moves simpleOps plainMagics (moves plainMagics startState) MoveType.kQuiet
        ⟨startState, []⟩).1 =
      (moves plainMagics startState).filter
        (quietMove simpleOps plainMagics ⟨startState, []⟩) :=
  ⟨fun _ _ => rfl, fun _ _ => rfl,
    (filter_moves_quiet simpleOps plainMagics (moves plainMagics startState) ⟨startState, []⟩
      (fun _ _ => rfl) (fun _ _ => rfl)).1⟩

theorem legal_moves_board {Board : Type} (ops : BoardOps Board) (mg : Magics) (board : Board)
    (h_undo : ∀ b m, ops.undo_move (ops.make_move b m) = b) :
    (legal_moves ops mg board).2 = board := by
  unfold legal_moves
  dsimp only
  rw [legal_moves_fold ops mg board (fun m =>
    !king_in_check mg (flip_color (ops.get_state (ops.make_move board m)).turn)
      (ops.get_state (ops.make_move board m)))]
  intro m
  simp only [is_legal_move, h_undo]

theorem filter_moves_board {Board : Type} (ops : BoardOps Board) (mg : Magics)
    (moves : MoveList) (type : MoveType) (board : Board)
    (h_undo : ∀ b m, ops.undo_move (ops.make_move b m) = b) :
    (filter_moves ops mg moves type board).2 = board := by
  unfold filter_moves
  cases type
  · rfl
  · rw [if_neg (by decide), fold_filter _ (occupancyCapture (ops.get_state board)) board]
    intro acc m
    simp only [if_true, is_capture_eq, MoveList.push]
    split_ifs <;> rfl
  · rw [if_neg (by decide), fold_filter _ (quietMove ops mg board) board]
    intro acc m
    simp only [reduceCtorEq, if_false, if_true, causes_check, h_undo, MoveList.push,
      Move.get_promotion_type, quietMove]
    split_ifs <;> simp_all

/-- C18: with `undo_move` reversing `make_move`, the board after `legal_moves` and
after `filter_moves` for each move class is the board before the call. The functions
`moves` and `capture_moves` only read the state and return a list. -/
theorem trial_application_restores_board {Board : Type} (ops : BoardOps Board) (mg : Magics)
    (board : Board) (h_undo : ∀ b m, ops.undo_move (ops.make_move b m) = b) :
    (legal_moves ops mg board).2 = board ∧
      ∀ (moves : MoveList) (type : MoveType),
        (filter_moves ops mg moves type board).2 = board :=
  ⟨legal_moves_board ops mg board h_undo,
    fun moves type => filter_moves_board ops mg moves type board h_undo⟩

/-- Witness for C18 on the starting position with the simple board. -/
theorem trial_application_restores_board_witness :
    (∀ b m, simpleOps.undo_move (simpleOps.make_move b m) = b) ∧
    (legal_moves simpleOps plainMagics ⟨startState, []⟩).2 = ⟨startState, []⟩ ∧
    (filter_moves simpleOps plainMagics (moves plainMagics startState) MoveType.kQuiet
      ⟨startState, []⟩).2 = ⟨startState, []⟩ :=
  ⟨fun _ _ => rfl,
    (trial_application_restores_board simpleOps plainMagics ⟨startState, []⟩
      (fun _ _ => rfl)).1,
    (trial_application_restores_board simpleOps plainMagics ⟨startState, []⟩
      (fun _ _ => rfl)).2 _ _⟩

/-! ## The attack tables -/

/-- After `initialize_attacks` on the zeroed tables the entries are the masks
`knight_masks`, `king_masks` and `pawn_masks`. -/
theorem initialize_attacks_tables :
    ∀ s, s < 64 →
      (initialize_attacks AttackTables.zeroed).knight_masks s = knight_masks s ∧
      (initialize_attacks AttackTables.zeroed).king_masks s = king_masks s ∧
      (initialize_attacks AttackTables.zeroed).pawn_masks Color.kWhite s =
        pawn_masks Color.kWhite s ∧
      (initialize_attacks AttackTables.zeroed).pawn_masks Color.kBlack s =
        pawn_masks Color.kBlack s := by
  decide!

theorem knight_masks_jump :
    ∀ s, s < 64 → ∀ t, t < 64 → (knight_masks s).is_set t = decide (knightJump s t) := by
  decide!

/-- C16: after `initialize_attacks` on zeroed tables, bit `t` of `knight_masks[s]` is set
exactly when `t` is a square whose file and rank distances from `s` are (1,2) or (2,1). -/
theorem knight_masks_exact (s : Nat) (hs : s < 64) (t : Nat) :
    ((initialize_attacks AttackTables.zeroed).knight_masks s).is_set t = true ↔
      t < 64 ∧ knightJump s t := by
  rw [(initialize_attacks_tables s hs).1]
  constructor
  · intro h
    have ht := (knight_masks s).is_set_lt h
    rw [knight_masks_jump s hs t ht] at h
    exact ⟨ht, of_decide_eq_true h⟩
  · rintro ⟨ht, hj⟩
    rw [knight_masks_jump s hs t ht]
    exact decide_eq_true hj

/-- Witness for C16: the knight mask of a1 holds b3 and c2. -/
theorem knight_masks_exact_witness :
    ((initialize_attacks AttackTables.zeroed).knight_masks 0).is_set 17 = true ∧
      ((initialize_attacks AttackTables.zeroed).knight_masks 0).is_set 10 = true :=
  ⟨(knight_masks_exact 0 (by decide) 17).2 (by decide),
    (knight_masks_exact 0 (by decide) 10).2 (by decide)⟩

/-! ## Pawn pushes -/

theorem BitBoard.is_set_shl (a : BitBoard) (n i : Nat) :
    (a <<< n).is_set i = (decide (i < 64) && (decide (n ≤ i) && a.is_set (i - n))) := by
  show (BitBoard.shl a n).is_set i = _
  rw [BitBoard.shl, BitBoard.is_set_ofNat, Nat.testBit_shiftLeft]
  rfl

theorem BitBoard.is_set_shr (a : BitBoard) (n i : Nat) :
    (a >>> n).is_set i = a.is_set (n + i) := by
  show (BitBoard.shr a n).is_set i = _
  rw [BitBoard.shr, BitBoard.is_set_ofNat, Nat.testBit_shiftRight]
  cases h : a.is_set (n + i)
  · rw [BitBoard.is_set] at h
    rw [h, Bool.and_false]
  · have := a.is_set_lt h
    rw [BitBoard.is_set] at h
    rw [h, Bool.and_true]
    exact decide_eq_true (by omega)

theorem on_rank2 : ∀ pos, pos < 64 →
    (BitBoard.from_square pos &&& RankMask.kRank2).nonEmpty = decide (rank pos = 1) := by
  decide!

theorem on_rank7 : ∀ pos, pos < 64 →
    (BitBoard.from_square pos &&& RankMask.kRank7).nonEmpty = decide (rank pos = 6) := by
  decide!

/-- C17: the pushes of a White pawn on `pos` are `pos + 8` when that square is
unoccupied and `pos + 16` when `pos` is on rank 2 and both squares are unoccupied, and
nothing else; for a Black pawn the same with `pos - 8`, `pos - 16` and rank 7. A square
holds a pawn of a color when the pawn board of that color has it and the color lookup
of the square returns that color. -/
theorem pawn_moves_pushes (state : BoardState) (pos t : Nat) :
    ((state.pawns Color.kWhite).is_set pos = true →
      state.get_piece_color pos = Color.kWhite →
      ((pawn_moves pos state).is_set t = true ↔
        (t = pos + 8 ∧ t < 64 ∧ state.occupied.is_set t = false) ∨
        (t = pos + 16 ∧ rank pos = 1 ∧ state.occupied.is_set (pos + 8) = false ∧
          state.occupied.is_set t = false))) ∧
    ((state.pawns Color.kBlack).is_set pos = true →
      state.get_piece_color pos = Color.kBlack →
      ((pawn_moves pos state).is_set t = true ↔
        (t + 8 = pos ∧ state.occupied.is_set t = false) ∨
        (t + 16 = pos ∧ rank pos = 6 ∧ state.occupied.is_set (t + 8) = false ∧
          state.occupied.is_set t = false))) := by
  constructor
  · intro hp hcol
    have hpos := (state.pawns Color.kWhite).is_set_lt hp
    unfold pawn_moves
    simp only [hcol, if_true, shift, on_rank2 pos hpos]
    by_cases hr : rank pos = 1
    · have hr' : pos / 8 = 1 := hr
      simp only [hr, decide_True, if_true, BitBoard.is_set_or, BitBoard.is_set_and,
        BitBoard.is_set_not, BitBoard.is_set_shl, BitBoard.is_set_from_square,
        BitBoard.is_set_zero, Bool.false_or, Bool.or_eq_true, Bool.and_eq_true,
        decide_eq_true_eq, Bool.not_eq_true']
      constructor
      · rintro (⟨⟨h1, h2, h3, h4⟩, h5, h6⟩ | ⟨⟨h1, h2, ⟨h3, h4, h5, h6⟩, h7, h8⟩, h9, h10⟩)
        · left
          exact ⟨by omega, h1, h6⟩
        · right
          have e : t = pos + 16 := by omega
          refine ⟨e, trivial, ?_, h10⟩
          have e2 : pos + 8 = t - 8 := by omega
          rw [e2]
          exact h8
      · rintro (⟨h1, h2, h3⟩ | ⟨h1, -, h3, h4⟩)
        · left
          exact ⟨⟨h2, by omega, by omega, by omega⟩, h2, h3⟩
        · right
          have e2 : t - 8 = pos + 8 := by omega
          refine ⟨⟨by omega, by omega, ⟨by omega, by omega, by omega, by omega⟩, by omega, ?_⟩,
            by omega, h4⟩
          rw [e2]
          exact h3
    · simp only [hr, decide_False, Bool.false_eq_true, if_false, BitBoard.is_set_or,
        BitBoard.is_set_and, BitBoard.is_set_not, BitBoard.is_set_shl,
        BitBoard.is_set_from_square, BitBoard.is_set_zero, Bool.false_or, Bool.and_eq_true,
        decide_eq_true_eq, Bool.not_eq_true', false_and, and_false, or_false]
      constructor
      · rintro ⟨⟨h1, h2, h3, h4⟩, h5, h6⟩
        exact ⟨by omega, h1, h6⟩
      · rintro ⟨h1, h2, h3⟩
        exact ⟨⟨h2, by omega, by omega, by omega⟩, h2, h3⟩
  · intro hp hcol
    have hpos := (state.pawns Color.kBlack).is_set_lt hp
    unfold pawn_moves
    simp only [hcol, reduceCtorEq, if_false, shift, on_rank7 pos hpos]
    by_cases hr : rank pos = 6
    · have hr' : pos / 8 = 6 := hr
      simp only [hr, decide_True, if_true, BitBoard.is_set_or, BitBoard.is_set_and,
        BitBoard.is_set_not, BitBoard.is_set_shr, BitBoard.is_set_from_square,
        BitBoard.is_set_zero, Bool.false_or, Bool.or_eq_true, Bool.and_eq_true,
        decide_eq_true_eq, Bool.not_eq_true']
      constructor
      · rintro (⟨⟨h1, h2⟩, h5, h6⟩ | ⟨⟨⟨h1, h2⟩, h3, h4⟩, h5, h6⟩)
        · left
          exact ⟨by omega, h6⟩
        · right
          exact ⟨by omega, trivial, by rw [Nat.add_comm]; exact h4, h6⟩
      · rintro (⟨h1, h3⟩ | ⟨h1, -, h3, h4⟩)
        · left
          exact ⟨⟨by omega, by omega⟩, by omega, h3⟩
        · right
          exact ⟨⟨⟨by omega, by omega⟩, by omega, by rw [Nat.add_comm]; exact h3⟩, by omega, h4⟩
    · simp only [hr, decide_False, Bool.false_eq_true, if_false, BitBoard.is_set_or,
        BitBoard.is_set_and, BitBoard.is_set_not, BitBoard.is_set_shr,
        BitBoard.is_set_from_square, BitBoard.is_set_zero, Bool.false_or, Bool.and_eq_true,
        decide_eq_true_eq, Bool.not_eq_true', false_and, and_false, or_false]
      constructor
      · rintro ⟨⟨h1, h2⟩, h5, h6⟩
        exact ⟨by omega, h6⟩
      · rintro ⟨h1, h3⟩
        exact ⟨⟨by omega, by omega⟩, by omega, h3⟩

/-- Witness for C17: the pawn on e2 of the starting position may advance to e4, the
pawn on e7 to e5. -/
theorem pawn_moves_pushes_witness :
    (startState.pawns Color.kWhite).is_set 12 = true ∧
      startState.get_piece_color 12 = Color.kWhite ∧
      (pawn_moves 12 startState).is_set 28 = true ∧
      (startState.pawns Color.kBlack).is_set 52 = true ∧
      startState.get_piece_color 52 = Color.kBlack ∧
      (pawn_moves 52 startState).is_set 36 = true :=
  ⟨by decide, by decide,
    ((pawn_moves_pushes startState 12 28).1 (by decide) (by decide)).2
      (Or.inr ⟨rfl, by decide, by decide, by decide⟩),
    by decide, by decide,
    ((pawn_moves_pushes startState 52 36).2 (by decide) (by decide)).2
      (Or.inr ⟨rfl, by decide, by decide, by decide⟩)⟩

/-! ## Enumeration order -/

theorem BitBoard.squares_sorted (a : BitBoard) : a.squares.Pairwise (· < ·) :=
  (List.pairwise_lt_range 64).filter _

theorem pawnPushes_sorted (turn : Color) (f t : Nat) :
    (pawnPushes turn f t).Pairwise sectionLt := by
  unfold pawnPushes promotionMoves
  split_ifs
  · simp [sectionLt, Move.mk3, promotionRank]
  · simp

theorem pawnSection_sorted (turn : Color) (pawns : BitBoard) (targets : Nat → BitBoard) :
    (pawnSection turn pawns targets).Pairwise sectionLt := by
  unfold pawnSection
  rw [List.pairwise_flatMap]
  constructor
  · intro f _
    rw [List.pairwise_flatMap]
    refine ⟨fun t _ => pawnPushes_sorted turn f t, ?_⟩
    refine (targets f).squares_sorted.imp ?_
    intro t1 t2 h12 x hx y hy
    obtain ⟨x1, x2⟩ := mem_pawnPushes hx
    obtain ⟨y1, y2⟩ := mem_pawnPushes hy
    right
    exact ⟨by rw [x1, y1], Or.inl (by rw [x2, y2]; exact h12)⟩
  · refine pawns.squares_sorted.imp ?_
    intro f1 f2 h12 x hx y hy
    rw [List.mem_flatMap] at hx hy
    obtain ⟨_, _, hx⟩ := hx
    obtain ⟨_, _, hy⟩ := hy
    left
    rw [(mem_pawnPushes hx).1, (mem_pawnPushes hy).1]
    exact h12

theorem pieceSection_sorted (pieces : BitBoard) (targets : Nat → BitBoard) :
    (pieceSection pieces targets).Pairwise sectionLt := by
  unfold pieceSection
  rw [List.pairwise_flatMap]
  constructor
  · intro f _
    rw [List.pairwise_map]
    refine (targets f).squares_sorted.imp ?_
    intro t1 t2 h12
    right
    exact ⟨rfl, Or.inl h12⟩
  · refine pieces.squares_sorted.imp ?_
    intro f1 f2 h12 x hx y hy
    rw [List.mem_map] at hx hy
    obtain ⟨_, _, rfl⟩ := hx
    obtain ⟨_, _, rfl⟩ := hy
    left
    exact h12

theorem count_set_le_one (l : List BitBoard) (h : l.Pairwise fun a b => a &&& b = 0)
    (i : Nat) : (l.map fun b => b.is_set i).count true ≤ 1 := by
  induction l with
  | nil => simp
  | cons a l ih =>
    rw [List.pairwise_cons] at h
    rw [List.map_cons, List.count_cons]
    cases ha : a.is_set i
    · simpa using ih h.2
    · have h0 : (l.map fun b => b.is_set i).count true = 0 := by
        rw [List.count_eq_zero, List.mem_map]
        rintro ⟨b, hb, hbi⟩
        have := disjoint_is_set (h.1 b hb) i ha
        rw [hbi] at this
        exact Bool.noConfusion this
      simp [h0]

theorem count_le_one_cases (l : List Bool) (h : l.count true ≤ 1) :
    l = List.replicate l.length false ∨
      ∃ k, k < l.length ∧ l = (List.replicate l.length false).set k true := by
  induction l with
  | nil => left; rfl
  | cons b t ih =>
    rw [List.count_cons] at h
    cases b
    · have ht : t.count true ≤ 1 := by simpa using h
      rcases ih ht with e | ⟨k, hk, e⟩
      · left
        rw [List.length_cons, List.replicate_succ, ← e]
      · right
        refine ⟨k + 1, by simpa using hk, ?_⟩
        rw [List.length_cons, List.replicate_succ, List.set_cons_succ, ← e]
    · have ht : t.count true = 0 := by simpa using h
      right
      refine ⟨0, by simp, ?_⟩
      rw [List.length_cons, List.replicate_succ, List.set_cons_zero]
      congr 1
      rw [List.count_eq_zero] at ht
      apply List.eq_replicate_of_mem
      intro x hx
      cases x
      · rfl
      · exact absurd hx ht

theorem one_hot12 (a1 a2 a3 a4 a5 a6 b1 b2 b3 b4 b5 b6 : Bool)
    (h : [a1, a2, a3, a4, a5, a6, b1, b2, b3, b4, b5, b6].count true ≤ 1) :
    [a1, a2, a3, a4, a5, a6, b1, b2, b3, b4, b5, b6] ∈ oneHots := by
  rcases count_le_one_cases _ h with e | ⟨k, hk, e⟩
  · have e1 : [a1, a2, a3, a4, a5, a6, b1, b2, b3, b4, b5, b6] =
        List.replicate 12 false := e
    rw [e1]
    decide
  · have e1 : [a1, a2, a3, a4, a5, a6, b1, b2, b3, b4, b5, b6] =
        (List.replicate 12 false).set k true := e
    have hk1 : k < 12 := hk
    rw [e1]
    interval_cases k <;> decide

/-- The piece type read off twelve membership bits, as `get_piece_type` does. -/
theorem piece_type_bools : ∀ a1 a2 a3 a4 a5 a6 b1 b2 b3 b4 b5 b6 : Bool,
    [a1, a2, a3, a4, a5, a6, b1, b2, b3, b4, b5, b6].count true ≤ 1 →
      ((a1 = true ∨ b1 = true) → pieceRank (if (a1 || b1) = true then PieceType.kPawn
        else if (a2 || b2) = true then PieceType.kKnight
        else if (a3 || b3) = true then PieceType.kBishop
        else if (a4 || b4) = true then PieceType.kRook
        else if (a5 || b5) = true then PieceType.kQueen
        else if (a6 || b6) = true then PieceType.kKing
        else PieceType.kNone) = 0) ∧
      ((a2 = true ∨ b2 = true) → pieceRank (if (a1 || b1) = true then PieceType.kPawn
        else if (a2 || b2) = true then PieceType.kKnight
        else if (a3 || b3) = true then PieceType.kBishop
        else if (a4 || b4) = true then PieceType.kRook
        else if (a5 || b5) = true then PieceType.kQueen
        else if (a6 || b6) = true then PieceType.kKing
        else PieceType.kNone) = 1) ∧
      ((a3 = true ∨ b3 = true) → pieceRank (if (a1 || b1) = true then PieceType.kPawn
        else if (a2 || b2) = true then PieceType.kKnight
        else if (a3 || b3) = true then PieceType.kBishop
        else if (a4 || b4) = true then PieceType.kRook
        else if (a5 || b5) = true then PieceType.kQueen
        else if (a6 || b6) = true then PieceType.kKing
        else PieceType.kNone) = 2) ∧
      ((a4 = true ∨ b4 = true) → pieceRank (if (a1 || b1) = true then PieceType.kPawn
        else if (a2 || b2) = true then PieceType.kKnight
        else if (a3 || b3) = true then PieceType.kBishop
        else if (a4 || b4) = true then PieceType.kRook
        else if (a5 || b5) = true then PieceType.kQueen
        else if (a6 || b6) = true then PieceType.kKing
        else PieceType.kNone) = 3) ∧
      ((a5 = true ∨ b5 = true) → pieceRank (if (a1 || b1) = true then PieceType.kPawn
        else if (a2 || b2) = true then PieceType.kKnight
        else if (a3 || b3) = true then PieceType.kBishop
        else if (a4 || b4) = true then PieceType.kRook
        else if (a5 || b5) = true then PieceType.kQueen
        else if (a6 || b6) = true then PieceType.kKing
        else PieceType.kNone) = 4) ∧
      ((a6 = true ∨ b6 = true) → pieceRank (if (a1 || b1) = true then PieceType.kPawn
        else if (a2 || b2) = true then PieceType.kKnight
        else if (a3 || b3) = true then PieceType.kBishop
        else if (a4 || b4) = true then PieceType.kRook
        else if (a5 || b5) = true then PieceType.kQueen
        else if (a6 || b6) = true then PieceType.kKing
        else PieceType.kNone) = 5) := by
  intro a1 a2 a3 a4 a5 a6 b1 b2 b3 b4 b5 b6 h
  have hm := one_hot12 _ _ _ _ _ _ _ _ _ _ _ _ h
  simp only [oneHots, List.mem_cons, List.cons.injEq, List.not_mem_nil, or_false] at hm
  rcases hm with ⟨rfl, rfl, rfl, rfl, rfl, rfl, rfl, rfl, rfl, rfl, rfl, rfl, -⟩ |
    ⟨rfl, rfl, rfl, rfl, rfl, rfl, rfl, rfl, rfl, rfl, rfl, rfl, -⟩ |
    ⟨rfl, rfl, rfl, rfl, rfl, rfl, rfl, rfl, rfl, rfl, rfl, rfl, -⟩ |
    ⟨rfl, rfl, rfl, rfl, rfl, rfl, rfl, rfl, rfl, rfl, rfl, rfl, -⟩ |
    ⟨rfl, rfl, rfl, rfl, rfl, rfl, rfl, rfl, rfl, rfl, rfl, rfl, -⟩ |
    ⟨rfl, rfl, rfl, rfl, rfl, rfl, rfl, rfl, rfl, rfl, rfl, rfl, -⟩ |
    ⟨rfl, rfl, rfl, rfl, rfl, rfl, rfl, rfl, rfl, rfl, rfl, rfl, -⟩ |
    ⟨rfl, rfl, rfl, rfl, rfl, rfl, rfl, rfl, rfl, rfl, rfl, rfl, -⟩ |
    ⟨rfl, rfl, rfl, rfl, rfl, rfl, rfl, rfl, rfl, rfl, rfl, rfl, -⟩ |
    ⟨rfl, rfl, rfl, rfl, rfl, rfl, rfl, rfl, rfl, rfl, rfl, rfl, -⟩ |
    ⟨rfl, rfl, rfl, rfl, rfl, rfl, rfl, rfl, rfl, rfl, rfl, rfl, -⟩ |
    ⟨rfl, rfl, rfl, rfl, rfl, rfl, rfl, rfl, rfl, rfl, rfl, rfl, -⟩ |
    ⟨rfl, rfl, rfl, rfl, rfl, rfl, rfl, rfl, rfl, rfl, rfl, rfl, -⟩ <;> decide

/-- Under the invariant, the type rank of a square is fixed by the board it is in. -/
theorem pieceRank_of_board {state : BoardState} (hs : state.one_piece_per_square)
    (c : Color) (i : Nat) :
    ((state.pawns c).is_set i = true → pieceRank (state.get_piece_type i) = 0) ∧
    ((state.knights c).is_set i = true → pieceRank (state.get_piece_type i) = 1) ∧
    ((state.bishops c).is_set i = true → pieceRank (state.get_piece_type i) = 2) ∧
    ((state.rooks c).is_set i = true → pieceRank (state.get_piece_type i) = 3) ∧
    ((state.queens c).is_set i = true → pieceRank (state.get_piece_type i) = 4) ∧
    ((state.king c).is_set i = true → pieceRank (state.get_piece_type i) = 5) := by
  have hc := count_set_le_one state.boards hs i
  simp only [BoardState.boards, List.map_cons, List.map_nil] at hc
  have key := piece_type_bools _ _ _ _ _ _ _ _ _ _ _ _ hc
  simp only [← BitBoard.is_set_or] at key
  obtain ⟨k1, k2, k3, k4, k5, k6⟩ := key
  unfold BoardState.get_piece_type
  cases c
  · exact ⟨fun h => k1 (Or.inl h), fun h => k2 (Or.inl h), fun h => k3 (Or.inl h),
      fun h => k4 (Or.inl h), fun h => k5 (Or.inl h), fun h => k6 (Or.inl h)⟩
  · exact ⟨fun h => k1 (Or.inr h), fun h => k2 (Or.inr h), fun h => k3 (Or.inr h),
      fun h => k4 (Or.inr h), fun h => k5 (Or.inr h), fun h => k6 (Or.inr h)⟩
  · simp [BoardState.pawns, BoardState.knights, BoardState.bishops, BoardState.rooks,
      BoardState.queens, BoardState.king, BitBoard.is_set_zero]

theorem keyLt_of_sectionLt {state : BoardState} {a b : Move}
    (hr : pieceRank (state.get_piece_type a.from_) = pieceRank (state.get_piece_type b.from_))
    (h : sectionLt a b) : keyLt (moveKey state a) (moveKey state b) :=
  Or.inr ⟨hr, h⟩

/-- Appending a section of one type rank to a list of smaller type ranks. -/
theorem append_section {state : BoardState} {L S : List Move} {r : Nat}
    (hL : L.Pairwise fun a b => keyLt (moveKey state a) (moveKey state b))
    (hLr : ∀ m ∈ L, pieceRank (state.get_piece_type m.from_) < r)
    (hS : S.Pairwise sectionLt)
    (hSr : ∀ m ∈ S, pieceRank (state.get_piece_type m.from_) = r) :
    ((L ++ S).Pairwise fun a b => keyLt (moveKey state a) (moveKey state b)) ∧
      ∀ m ∈ L ++ S, pieceRank (state.get_piece_type m.from_) < r + 1 := by
  constructor
  · rw [List.pairwise_append]
    refine ⟨hL, ?_, ?_⟩
    · exact hS.imp_of_mem fun {a b} ha hb h =>
        keyLt_of_sectionLt (by rw [hSr a ha, hSr b hb]) h
    · intro a ha b hb
      left
      show pieceRank _ < pieceRank _
      rw [hSr b hb]
      exact hLr a ha
  · intro m hm
    rw [List.mem_append] at hm
    rcases hm with hm | hm
    · exact Nat.lt_succ_of_lt (hLr m hm)
    · rw [hSr m hm]
      exact Nat.lt_succ_self r

theorem keyLt_irrefl (k : Nat × Nat × Nat × Nat) : ¬ keyLt k k := by
  unfold keyLt
  omega

/-- The six sections, for any destination functions, have strictly increasing keys. -/
theorem sections_ordered (state : BoardState) (hs : state.one_piece_per_square)
    (T0 T1 T2 T3 T4 T5 : Nat → BitBoard) :
    (pawnSection state.turn (state.pawns state.turn) T0 ++
      pieceSection (state.knights state.turn) T1 ++
      pieceSection (state.bishops state.turn) T2 ++
      pieceSection (state.rooks state.turn) T3 ++
      pieceSection (state.queens state.turn) T4 ++
      pieceSection (state.king state.turn) T5).Pairwise
        fun a b => keyLt (moveKey state a) (moveKey state b) := by
  have h0 : ([] : List Move).Pairwise fun a b =>
      keyLt (moveKey state a) (moveKey state b) := List.Pairwise.nil
  have s1 := append_section (r := 0) (S := pawnSection state.turn (state.pawns state.turn) T0)
    h0 (fun m hm => absurd hm (List.not_mem_nil m))
    (pawnSection_sorted _ _ _) (by
      intro m hm
      obtain ⟨f, hf, t, _, hmem⟩ := mem_pawnSection.1 hm
      rw [(mem_pawnPushes hmem).1]
      exact (pieceRank_of_board hs state.turn f).1 hf)
  rw [List.nil_append] at s1
  have s2 := append_section s1.1 s1.2 (pieceSection_sorted (state.knights state.turn) T1) (by
      intro m hm
      obtain ⟨f, hf, t, _, rfl⟩ := mem_pieceSection.1 hm
      exact (pieceRank_of_board hs state.turn f).2.1 hf)
  have s3 := append_section s2.1 s2.2 (pieceSection_sorted (state.bishops state.turn) T2) (by
      intro m hm
      obtain ⟨f, hf, t, _, rfl⟩ := mem_pieceSection.1 hm
      exact (pieceRank_of_board hs state.turn f).2.2.1 hf)
  have s4 := append_section s3.1 s3.2 (pieceSection_sorted (state.rooks state.turn) T3) (by
      intro m hm
      obtain ⟨f, hf, t, _, rfl⟩ := mem_pieceSection.1 hm
      exact (pieceRank_of_board hs state.turn f).2.2.2.1 hf)
  have s5 := append_section s4.1 s4.2 (pieceSection_sorted (state.queens state.turn) T4) (by
      intro m hm
      obtain ⟨f, hf, t, _, rfl⟩ := mem_pieceSection.1 hm
      exact (pieceRank_of_board hs state.turn f).2.2.2.2.1 hf)
  have s6 := append_section s5.1 s5.2 (pieceSection_sorted (state.king state.turn) T5) (by
      intro m hm
      obtain ⟨f, hf, t, _, rfl⟩ := mem_pieceSection.1 hm
      exact (pieceRank_of_board hs state.turn f).2.2.2.2.2 hf)
  exact s6.1

/-- C13 as stated fails for a state with two pieces on one square: the move a1a2 is
generated by the rook loop and again by the queen loop, so the list has duplicates and
the keys do not increase. -/
theorem moves_not_ordered :
    ¬ (moves plainMagics overlapState).Nodup ∧
      ¬ ((moves plainMagics overlapState).Pairwise fun a b =>
        keyLt (moveKey overlapState a) (moveKey overlapState b)) := by
  decide!

/-- C13 amended: in a state with at most one piece per square the keys (piece-type rank,
source, destination, promotion rank) of `moves` are strictly increasing
lexicographically along the list, so the list has no duplicates. -/
theorem moves_ordered (mg : Magics) (state : BoardState) (hs : state.one_piece_per_square) :
    ((moves mg state).Pairwise fun a b => keyLt (moveKey state a) (moveKey state b)) ∧
      (moves mg state).Nodup := by
  have key : (moves mg state).Pairwise fun a b =>
      keyLt (moveKey state a) (moveKey state b) := by
    rw [moves_eq]
    simp only [pieceSections, ← List.append_assoc]
    exact sections_ordered state hs _ _ _ _ _ _
  refine ⟨key, ?_⟩
  refine key.imp ?_
  intro a b h e
  rw [e] at h
  exact keyLt_irrefl _ h

/-- Witness for C13 on the starting position. -/
theorem moves_ordered_witness :
    startState.one_piece_per_square ∧
      ((moves plainMagics startState).Pairwise fun a b =>
        keyLt (moveKey startState a) (moveKey startState b)) :=
  ⟨by decide, (moves_ordered plainMagics startState (by decide)).1⟩

/-! ## The two attack computations -/

theorem BitBoard.nonEmpty_iff (a : BitBoard) :
    a.nonEmpty = true ↔ ∃ i, a.is_set i = true := by
  constructor
  · intro h
    have h0 : a.bits ≠ 0 := by simpa [BitBoard.nonEmpty] using h
    exact Nat.ne_zero_implies_bit_true h0
  · rintro ⟨i, hi⟩
    cases hne : a.nonEmpty
    · have := a.squares_eq_nil_of_empty hne
      have hm := (a.mem_squares i).2 hi
      rw [this] at hm
      exact absurd hm (List.not_mem_nil i)
    · rfl

theorem BitBoard.nonEmpty_and_iff (a b : BitBoard) :
    (a &&& b).nonEmpty = true ↔ ∃ i, a.is_set i = true ∧ b.is_set i = true := by
  rw [BitBoard.nonEmpty_iff]
  simp only [BitBoard.is_set_and, Bool.and_eq_true]

theorem BitBoard.is_set_get_lsb_pos (a : BitBoard) (h : a.nonEmpty = true) :
    a.is_set a.get_lsb_pos = true := by
  obtain ⟨k, rest, hk⟩ := List.exists_cons_of_ne_nil (a.squares_ne_nil_of_nonEmpty h)
  rw [a.get_lsb_pos_eq hk]
  apply (a.mem_squares k).1
  rw [hk]
  exact List.mem_cons_self k rest

theorem foldl_or_is_set (f : Nat → BitBoard) (i : Nat) :
    ∀ (l : List Nat) (init : BitBoard),
      (l.foldl (fun acc sq => acc ||| f sq) init).is_set i = true ↔
        init.is_set i = true ∨ ∃ sq ∈ l, (f sq).is_set i = true := by
  intro l
  induction l with
  | nil => intro init; simp
  | cons a l ih =>
    intro init
    rw [List.foldl_cons, ih, BitBoard.is_set_or, Bool.or_eq_true]
    simp only [List.mem_cons, exists_eq_or_imp, or_assoc]

theorem while_pop_or_is_set (f : Nat → BitBoard) (pieces init : BitBoard) (i : Nat) :
    (while_pop (fun (attacked : BitBoard) (square : Nat) => attacked ||| f square) 64
        pieces init).is_set i = true ↔
      init.is_set i = true ∨ ∃ sq, pieces.is_set sq = true ∧ (f sq).is_set i = true := by
  rw [while_pop_eq_foldl, foldl_or_is_set]
  simp only [BitBoard.mem_squares]

theorem masks_symmetric : ∀ s, s < 64 → ∀ t, t < 64 →
    (knight_masks s).is_set t = (knight_masks t).is_set s ∧
    (king_masks s).is_set t = (king_masks t).is_set s ∧
    (pawn_masks Color.kWhite s).is_set t = (pawn_masks Color.kBlack t).is_set s := by
  decide!

theorem color_bools : ∀ a1 a2 a3 a4 a5 a6 b1 b2 b3 b4 b5 b6 : Bool,
    [a1, a2, a3, a4, a5, a6, b1, b2, b3, b4, b5, b6].count true ≤ 1 →
      (b1 || b2 || b3 || b4 || b5 || b6) = true →
      (a1 || a2 || a3 || a4 || a5 || a6) = false := by
  intro a1 a2 a3 a4 a5 a6 b1 b2 b3 b4 b5 b6 h
  have hm := one_hot12 _ _ _ _ _ _ _ _ _ _ _ _ h
  simp only [oneHots, List.mem_cons, List.cons.injEq, List.not_mem_nil, or_false] at hm
  rcases hm with ⟨rfl, rfl, rfl, rfl, rfl, rfl, rfl, rfl, rfl, rfl, rfl, rfl, -⟩ |
    ⟨rfl, rfl, rfl, rfl, rfl, rfl, rfl, rfl, rfl, rfl, rfl, rfl, -⟩ |
    ⟨rfl, rfl, rfl, rfl, rfl, rfl, rfl, rfl, rfl, rfl, rfl, rfl, -⟩ |
    ⟨rfl, rfl, rfl, rfl, rfl, rfl, rfl, rfl, rfl, rfl, rfl, rfl, -⟩ |
    ⟨rfl, rfl, rfl, rfl, rfl, rfl, rfl, rfl, rfl, rfl, rfl, rfl, -⟩ |
    ⟨rfl, rfl, rfl, rfl, rfl, rfl, rfl, rfl, rfl, rfl, rfl, rfl, -⟩ |
    ⟨rfl, rfl, rfl, rfl, rfl, rfl, rfl, rfl, rfl, rfl, rfl, rfl, -⟩ |
    ⟨rfl, rfl, rfl, rfl, rfl, rfl, rfl, rfl, rfl, rfl, rfl, rfl, -⟩ |
    ⟨rfl, rfl, rfl, rfl, rfl, rfl, rfl, rfl, rfl, rfl, rfl, rfl, -⟩ |
    ⟨rfl, rfl, rfl, rfl, rfl, rfl, rfl, rfl, rfl, rfl, rfl, rfl, -⟩ |
    ⟨rfl, rfl, rfl, rfl, rfl, rfl, rfl, rfl, rfl, rfl, rfl, rfl, -⟩ |
    ⟨rfl, rfl, rfl, rfl, rfl, rfl, rfl, rfl, rfl, rfl, rfl, rfl, -⟩ |
    ⟨rfl, rfl, rfl, rfl, rfl, rfl, rfl, rfl, rfl, rfl, rfl, rfl, -⟩ <;> decide

/-- Under the invariant the color lookup of a square returns the color of the board
the square is in. -/
theorem get_piece_color_of_occupied {state : BoardState} (hs : state.one_piece_per_square)
    (c : Color) (pos : Nat) (h : (state.occupied_by c).is_set pos = true) :
    state.get_piece_color pos = c := by
  cases c
  · rw [BoardState.get_piece_color, if_pos h]
  · have hc := count_set_le_one state.boards hs pos
    simp only [BoardState.boards, List.map_cons, List.map_nil] at hc
    have hw : (state.occupied_by Color.kWhite).is_set pos = false := by
      have := color_bools _ _ _ _ _ _ _ _ _ _ _ _ hc
      simp only [BoardState.occupied_by, BoardState.pawns, BoardState.knights,
        BoardState.bishops, BoardState.rooks, BoardState.queens, BoardState.king,
        BitBoard.is_set_or] at h ⊢
      exact this h
    rw [BoardState.get_piece_color, hw, h]
    rfl
  · simp [BoardState.occupied_by, BoardState.pawns, BoardState.knights, BoardState.bishops,
      BoardState.rooks, BoardState.queens, BoardState.king, BitBoard.is_set_or,
      BitBoard.is_set_zero] at h

theorem pawn_attacks_default (pos : Nat) (state : BoardState) :
    pawn_attacks pos state Color.kNoColor false = pawn_masks (state.get_piece_color pos) pos := by
  simp [pawn_attacks]

theorem pawn_attacks_which (pos : Nat) (state : BoardState) (c : Color)
    (hc : c ≠ Color.kNoColor) :
    pawn_attacks pos state c false = pawn_masks c pos := by
  simp [pawn_attacks, hc]

/-- Membership in the set built by `get_attacked_squares`. -/
theorem is_set_get_attacked_squares (mg : Magics) (state : BoardState) (c : Color) (i : Nat) :
    (get_attacked_squares mg state c true).is_set i = true ↔
      (∃ sq, (state.pawns c).is_set sq = true ∧
        (pawn_masks (state.get_piece_color sq) sq).is_set i = true) ∨
      (∃ sq, (state.knights c).is_set sq = true ∧ (knight_masks sq).is_set i = true) ∨
      (∃ sq, (state.bishops c).is_set sq = true ∧
        (bishop_moves mg sq state.occupied).is_set i = true) ∨
      (∃ sq, (state.rooks c).is_set sq = true ∧
        (rook_moves mg sq state.occupied).is_set i = true) ∨
      (∃ sq, (state.queens c).is_set sq = true ∧
        ((rook_moves mg sq state.occupied).is_set i = true ∨
          (bishop_moves mg sq state.occupied).is_set i = true)) ∨
      ((state.king c).nonEmpty = true ∧
        (king_masks (state.king c).get_lsb_pos).is_set i = true) := by
  unfold get_attacked_squares
  simp only [if_true, pawn_attacks_default, knight_moves, king_attacks, BitBoard.pop_lsb]
  cases hk : (state.king c).nonEmpty
  · simp only [Bool.false_eq_true, if_false, false_and, or_false, while_pop_or_is_set,
      BitBoard.is_set_zero, false_or, BitBoard.is_set_or, Bool.or_eq_true, or_assoc]
  · simp only [if_true, true_and, while_pop_or_is_set, BitBoard.is_set_or, Bool.or_eq_true,
      BitBoard.is_set_zero, Bool.false_eq_true, false_or, or_assoc]

/-- Membership form of `is_square_attacked`. -/
theorem is_square_attacked_iff (mg : Magics) (state : BoardState) (c : Color)
    (hc : c ≠ Color.kNoColor) (i : Nat) :
    is_square_attacked mg i c state = true ↔
      (∃ sq, (state.pawns c).is_set sq = true ∧
        (pawn_masks (flip_color c) i).is_set sq = true) ∨
      (∃ sq, (state.knights c).is_set sq = true ∧ (knight_masks i).is_set sq = true) ∨
      (∃ sq, (state.king c).is_set sq = true ∧ (king_masks i).is_set sq = true) ∨
      (∃ sq, (state.queens c).is_set sq = true ∧
        ((rook_moves mg i state.occupied).is_set sq = true ∨
          (bishop_moves mg i state.occupied).is_set sq = true)) ∨
      (∃ sq, (state.rooks c).is_set sq = true ∧
        (rook_moves mg i state.occupied).is_set sq = true) ∨
      (∃ sq, (state.bishops c).is_set sq = true ∧
        (bishop_moves mg i state.occupied).is_set sq = true) := by
  have hf : flip_color c ≠ Color.kNoColor := by cases c <;> simp [flip_color] at hc ⊢
  simp only [is_square_attacked, is_square_attacked_non_sliding_pieces,
    is_square_attacked_sliding_pieces, pawn_attacks_which _ _ _ hf, knight_moves, king_attacks,
    Bool.or_eq_true, BitBoard.nonEmpty_and_iff, BitBoard.is_set_or, or_assoc]

theorem or_perm6 (P N B R Q K : Prop) :
    (P ∨ N ∨ K ∨ Q ∨ R ∨ B) ↔ (P ∨ N ∨ B ∨ R ∨ Q ∨ K) := by
  tauto

theorem pawn_masks_flip (c : Color) (hc : c ≠ Color.kNoColor) (s t : Nat) (hs : s < 64)
    (ht : t < 64) : (pawn_masks (flip_color c) s).is_set t = (pawn_masks c t).is_set s := by
  cases c
  · exact ((masks_symmetric t ht s hs).2.2).symm
  · exact (masks_symmetric s hs t ht).2.2
  · exact absurd rfl hc

/-- The ray-walk lookups are symmetric for the occupancy a1, h1, e8. -/
theorem sliders_symmetric_corner : slidersSymmetric plainMagics twoKingsState.occupied := by
  decide!

/-- C20 as stated fails: with two white kings on different squares every stated
assumption holds, `is_square_attacked` reports g2 as attacked by the king on h1, and
`get_attacked_squares` only adds the attacks of the king on a1. -/
theorem second_king_not_counted :
    twoKingsState.one_piece_per_square ∧
      slidersSymmetric plainMagics twoKingsState.occupied ∧
      is_square_attacked plainMagics 14 Color.kWhite twoKingsState = true ∧
      (get_attacked_squares plainMagics twoKingsState Color.kWhite true).is_set 14 = false :=
  ⟨by decide!, sliders_symmetric_corner, by decide!, by decide!⟩

/-- C20 amended: for a state with at most one piece per square and at most one king
of the attacking color, and rook and bishop lookups symmetric for the occupancy of the
state, `is_square_attacked` is true exactly for the members of `get_attacked_squares`
with the king included. -/
theorem attack_computations_agree (mg : Magics) (state : BoardState) (c : Color) (sq : Nat)
    (hsq : sq < 64) (hs : state.one_piece_per_square) (hk : atMostOneKing state c)
    (hsym : slidersSymmetric mg state.occupied) :
    is_square_attacked mg sq c state = (get_attacked_squares mg state c true).is_set sq := by
  by_cases hc : c = Color.kNoColor
  · subst hc
    have h1 : is_square_attacked mg sq Color.kNoColor state = false := by
      rw [← Bool.not_eq_true]
      simp only [is_square_attacked, is_square_attacked_non_sliding_pieces,
        is_square_attacked_sliding_pieces, BoardState.pawns, BoardState.knights,
        BoardState.bishops, BoardState.rooks, BoardState.queens, BoardState.king,
        Bool.or_eq_true, BitBoard.nonEmpty_and_iff, BitBoard.is_set_zero]
      simp
    have h2 : (get_attacked_squares mg state Color.kNoColor true).is_set sq = false := by
      rw [← Bool.not_eq_true, is_set_get_attacked_squares]
      simp [BoardState.pawns, BoardState.knights, BoardState.bishops, BoardState.rooks,
        BoardState.queens, BoardState.king, BitBoard.is_set_zero, BitBoard.nonEmpty_iff]
    rw [h1, h2]
  · rw [Bool.eq_iff_iff, is_square_attacked_iff mg state c hc, is_set_get_attacked_squares]
    have hlt : ∀ (b : BitBoard) {x : Nat}, b.is_set x = true → x < 64 :=
      fun b _ h => b.is_set_lt h
    have e1 : (∃ t, (state.pawns c).is_set t = true ∧
          (pawn_masks (flip_color c) sq).is_set t = true) ↔
        (∃ t, (state.pawns c).is_set t = true ∧
          (pawn_masks (state.get_piece_color t) t).is_set sq = true) := by
      apply exists_congr
      intro t
      apply and_congr_right
      intro ht
      have hcol : state.get_piece_color t = c := by
        apply get_piece_color_of_occupied hs
        simp [BoardState.occupied_by, BitBoard.is_set_or, ht]
      rw [hcol, pawn_masks_flip c hc sq t hsq (hlt _ ht)]
    have e2 : (∃ t, (state.knights c).is_set t = true ∧ (knight_masks sq).is_set t = true) ↔
        (∃ t, (state.knights c).is_set t = true ∧ (knight_masks t).is_set sq = true) := by
      apply exists_congr
      intro t
      apply and_congr_right
      intro ht
      rw [(masks_symmetric sq hsq t (hlt _ ht)).1]
    have e3 : (∃ t, (state.bishops c).is_set t = true ∧
          (bishop_moves mg sq state.occupied).is_set t = true) ↔
        (∃ t, (state.bishops c).is_set t = true ∧
          (bishop_moves mg t state.occupied).is_set sq = true) := by
      apply exists_congr
      intro t
      apply and_congr_right
      intro ht
      rw [(hsym sq hsq t (hlt _ ht)).2]
    have e4 : (∃ t, (state.rooks c).is_set t = true ∧
          (rook_moves mg sq state.occupied).is_set t = true) ↔
        (∃ t, (state.rooks c).is_set t = true ∧
          (rook_moves mg t state.occupied).is_set sq = true) := by
      apply exists_congr
      intro t
      apply and_congr_right
      intro ht
      rw [(hsym sq hsq t (hlt _ ht)).1]
    have e5 : (∃ t, (state.queens c).is_set t = true ∧
          ((rook_moves mg sq state.occupied).is_set t = true ∨
            (bishop_moves mg sq state.occupied).is_set t = true)) ↔
        (∃ t, (state.queens c).is_set t = true ∧
          ((rook_moves mg t state.occupied).is_set sq = true ∨
            (bishop_moves mg t state.occupied).is_set sq = true)) := by
      apply exists_congr
      intro t
      apply and_congr_right
      intro ht
      rw [(hsym sq hsq t (hlt _ ht)).1, (hsym sq hsq t (hlt _ ht)).2]
    have e6 : (∃ t, (state.king c).is_set t = true ∧ (king_masks sq).is_set t = true) ↔
        ((state.king c).nonEmpty = true ∧
          (king_masks (state.king c).get_lsb_pos).is_set sq = true) := by
      constructor
      · rintro ⟨t, ht, hm⟩
        have hne : (state.king c).nonEmpty = true := (BitBoard.nonEmpty_iff _).2 ⟨t, ht⟩
        have hl := (state.king c).is_set_get_lsb_pos hne
        have e : (state.king c).get_lsb_pos = t := hk _ (hlt _ hl) _ (hlt _ ht) hl ht
        rw [e, ← (masks_symmetric sq hsq t (hlt _ ht)).2.1]
        exact ⟨hne, hm⟩
      · rintro ⟨hne, hm⟩
        have hl := (state.king c).is_set_get_lsb_pos hne
        refine ⟨_, hl, ?_⟩
        rw [(masks_symmetric sq hsq _ (hlt _ hl)).2.1]
        exact hm
    rw [e1, e2, e3, e4, e5, e6]
    exact or_perm6 _ _ _ _ _ _

/-- Witness for C20 on a position with a white rook on h1: h2 is attacked by White in
both computations. -/
theorem attack_computations_agree_witness :
    rookKingState.one_piece_per_square ∧ atMostOneKing rookKingState Color.kWhite ∧
      slidersSymmetric plainMagics rookKingState.occupied ∧
      is_square_attacked plainMagics 15 Color.kWhite rookKingState =
        (get_attacked_squares plainMagics rookKingState Color.kWhite true).is_set 15 :=
  ⟨by decide!, by decide!, sliders_symmetric_corner,
    attack_computations_agree plainMagics rookKingState Color.kWhite 15 (by decide)
      (by decide!) (by decide!) sliders_symmetric_corner⟩

/-! ## The `en_passant` flag of `pawn_attacks` -/

theorem BitBoard.eq_of_is_set_eq {a b : BitBoard} (h : ∀ i, a.is_set i = b.is_set i) : a = b := by
  cases a with
  | mk x hx =>
    cases b with
    | mk y hy =>
      have e : x = y := Nat.eq_of_testBit_eq h
      subst e
      rfl

theorem BitBoard.set_bit_of_is_set (a : BitBoard) (sq : Nat) (h : a.is_set sq = true) :
    a.set_bit sq = a := by
  apply BitBoard.eq_of_is_set_eq
  intro i
  rw [BitBoard.is_set_set_bit]
  by_cases e : sq = i
  · subst e
    simp [h]
  · simp [e]

/-- C21: the `en_passant` flag of `pawn_attacks` has no effect. For every square, state
and color argument the result with the flag set equals the result without it, and both
are the entry of `pawn_masks` at `pos` for the selected color, which is `which`, or the
color of the piece on `pos` when `which` is `kNoColor`: the bit set under the flag is
one the mask already has. -/
theorem pawn_attacks_flag_no_effect (pos : Nat) (state : BoardState) (which : Color) :
    pawn_attacks pos state which true = pawn_attacks pos state which false ∧
      pawn_attacks pos state which true =
        pawn_masks (if which = Color.kNoColor then state.get_piece_color pos else which) pos ∧
      pawn_attacks pos state which false =
        pawn_masks (if which = Color.kNoColor then state.get_piece_color pos else which) pos := by
  have hfalse : pawn_attacks pos state which false =
      pawn_masks (if which = Color.kNoColor then state.get_piece_color pos else which) pos := by
    simp [pawn_attacks]
  have htrue : pawn_attacks pos state which true =
      pawn_masks (if which = Color.kNoColor then state.get_piece_color pos else which) pos := by
    unfold pawn_attacks
    dsimp only
    generalize pawn_masks (if which = Color.kNoColor then state.get_piece_color pos else which)
      pos = attacks
    by_cases h : (true && state.en_passant != Square.kNoSquare &&
        attacks.is_set state.en_passant) = true
    · rw [if_pos h]
      apply BitBoard.set_bit_of_is_set
      simp only [Bool.and_eq_true] at h
      exact h.2
    · rw [if_neg h]
  exact ⟨htrue.trans hfalse.symm, htrue, hfalse⟩

end Integral
